import Mathlib

/-!
Verification development for the `commit_critic` memory subsystem.

The definitions below are a shallow embedding, translated from the Python
sources (`src/memory/extractor.py`, `src/memory/seeder.py`,
`src/memory/store.py`, `src/memory/embeddings.py`, `src/memory/profiler.py`,
`src/vcs/operations.py`, `src/memory/schemas.py`).  Conventions used
throughout:

* Python floats are modelled by exact rationals (`ℚ`).  The fixed policy
  thresholds (`0.3`, `0.2`, `>= 1`) are modelled by the exact rationals
  `3/10`, `1/5`, `1`; at every threshold boundary that is exactly
  representable the float comparison and the rational comparison agree, and
  the two can only differ on denominators far beyond any real commit list.
* Python exceptions are modelled by `Option`: a function that can raise
  returns `none` in exactly the situations where the Python code raises.
* Regular-expression matches are modelled over their ASCII semantics
  (`str.lower`, `\w`, `[A-Z]` with `re.IGNORECASE`, `\d`, `\s`), which is the
  alphabet the patterns are written for.
* `sqlite3` tables are modelled as lists of rows in rowid (insertion) order,
  with the foreign-key actions (`ON DELETE CASCADE`, `ON DELETE SET NULL`)
  declared in `SCHEMA_SQL` executed on delete, and the declared `UNIQUE` /
  `CHECK` / foreign-key constraints checked on insert.
-/

/-- `StylePattern` enum from `src/memory/schemas.py`. -/
inductive StylePattern where
  | conventional
  | emoji
  | ticket
  | freeform
deriving DecidableEq, Repr

/-- `ProjectType` enum from `src/memory/schemas.py`. -/
inductive ProjectType where
  | cliTool
  | webApp
  | webFramework
  | library
  | apiService
  | mobileApp
  | dataPipeline
  | unknown
deriving DecidableEq, Repr

/-- `AntipatternType` enum from `src/memory/schemas.py`. -/
inductive AntipatternType where
  | wipChain
  | oneWord
  | vague
  | noContext
  | tooLong
  | capsAbuse
deriving DecidableEq, Repr

/-- `files_changed: int | list[str]` from `CommitInfo` in
`src/vcs/operations.py`: either a bare count or the list of changed paths. -/
inductive FilesChanged where
  | count (n : Nat)
  | paths (l : List String)
deriving DecidableEq, Repr

/-- `CommitInfo` from `src/vcs/operations.py` (the `date` field is wall-clock
data never inspected by the memory pipeline and is omitted). -/
structure CommitInfo where
  hash : String
  short_hash : String
  message : String
  author : String
  files_changed : FilesChanged
deriving DecidableEq, Repr

/-- `LanguageBreakdown` from `src/memory/schemas.py`. -/
structure LanguageBreakdown where
  language : String
  percentage : ℚ
deriving DecidableEq, Repr

/-- `CommitStyle` from `src/memory/schemas.py`. -/
structure CommitStyle where
  pattern : StylePattern
  uses_scopes : Bool
  common_scopes : List String
  uses_emoji : Bool
  ticket_pattern : Option String
deriving DecidableEq, Repr

/-- The default `CommitStyle()` (all pydantic field defaults). -/
def defaultCommitStyle : CommitStyle :=
  ⟨StylePattern.freeform, false, [], false, none⟩

/-- `CodebaseDNA` from `src/memory/schemas.py`. -/
structure CodebaseDNA where
  primary_language : Option String
  languages : List LanguageBreakdown
  frameworks : List String
  project_type : ProjectType
deriving DecidableEq, Repr

/-! ### ASCII string helpers

The embedding works on `String.data` character lists with structural
functions (`str.lower`, `str.strip`, `str.split`) so that every definition
reduces by computation. -/

/-- `str.lower()` (ASCII). -/
def strLower (s : String) : String := String.mk (s.data.map Char.toLower)

/-- `str.strip()` on a character list (ASCII whitespace). -/
def trimList (cs : List Char) : List Char :=
  ((cs.dropWhile Char.isWhitespace).reverse.dropWhile Char.isWhitespace).reverse

/-- `str.strip()`. -/
def strTrim (s : String) : String := String.mk (trimList s.data)

/-- `str.split(sep)` for a one-character separator, on character lists
(`"".split("/") == [""]`, empty pieces kept). -/
def splitListOnChar (sep : Char) : List Char → List (List Char)
  | [] => [[]]
  | c :: rest =>
    let r := splitListOnChar sep rest
    if c = sep then [] :: r
    else
      match r with
      | h :: t => (c :: h) :: t
      | [] => [[c]]

/-- `str.split()` pieces (before dropping empties): split at every
whitespace character. -/
def splitListWs : List Char → List (List Char)
  | [] => [[]]
  | c :: rest =>
    let r := splitListWs rest
    if c.isWhitespace then [] :: r
    else
      match r with
      | h :: t => (c :: h) :: t
      | [] => [[c]]

/-! ### Counter / dict helpers

Python `dict` and `collections.Counter` preserve insertion order; `keysInOrder`
is the list of distinct keys in first-occurrence order, and `mostCommonKeys`
models `Counter(l).most_common(n)` (stable sort by count, descending; ties
keep first-encountered order, matching CPython). -/

/-- Distinct elements of a list in first-occurrence order (the key order of a
Python `Counter` built by repeated `+= 1`): a key is emitted the first time it
is encountered, i.e. when it is not among the keys already seen. -/
def keysInOrderAux (seen : List String) : List String → List String
  | [] => []
  | a :: rest =>
    if a ∈ seen then keysInOrderAux seen rest
    else a :: keysInOrderAux (a :: seen) rest

/-- The distinct keys of a `Counter` built from `l`, in insertion order. -/
def keysInOrder (l : List String) : List String := keysInOrderAux [] l

/-- The keys of `Counter(l).most_common n`, in order: stable sort of the
distinct keys by descending count (CPython's sort is stable, and a stable
sort by a total preorder is unique, so insertion sort models it exactly:
ties keep first-encountered order). -/
def mostCommonKeys (n : Nat) (l : List String) : List String :=
  (List.insertionSort (fun a b => l.count b ≤ l.count a) (keysInOrder l)).take n

/-! ### Style extractor (`src/memory/extractor.py`, class `StyleExtractor`) -/

/-- `CONVENTIONAL_TYPES` from `src/memory/extractor.py` (a `set`; order is
irrelevant, it is only consulted through `any` / `in`). -/
def CONVENTIONAL_TYPES : List String :=
  ["feat", "fix", "docs", "style", "refactor", "test", "chore", "perf", "ci",
   "build", "revert"]

/-- The conventional-commit test in `_detect_pattern`:
`msg_lower.startswith(t + "(") or msg_lower.startswith(t + ":")` for some
known type, where `msg_lower = msg.lower().strip()`. -/
def isConventionalMsg (msg : String) : Bool :=
  let msgLower := strTrim (strLower msg)
  CONVENTIONAL_TYPES.any fun t =>
    (t ++ "(").data.isPrefixOf msgLower.data ||
      (t ++ ":").data.isPrefixOf msgLower.data

/-- ASCII `[a-z_]` character class used by the `:emoji:` alternative of
`EMOJI_PATTERN`. -/
def isEmojiNameChar (c : Char) : Bool :=
  (97 ≤ c.toNat && c.toNat ≤ 122) || c = '_'

/-- A code point inside one of the three Unicode emoji ranges of
`EMOJI_PATTERN`. -/
def isEmojiCodepoint (c : Char) : Bool :=
  (0x1F300 ≤ c.toNat && c.toNat ≤ 0x1F9FF) ||
  (0x2600 ≤ c.toNat && c.toNat ≤ 0x26FF) ||
  (0x2700 ≤ c.toNat && c.toNat ≤ 0x27BF)

/-- `EMOJI_PATTERN.match(msg)` as a boolean: the message starts with
`:name:` (name a nonempty `[a-z_]+` run) or with an emoji code point.  The
trailing `\s*` of the pattern never affects whether a match exists. -/
def emojiMatch (msg : String) : Bool :=
  match msg.data with
  | [] => false
  | c :: rest =>
    if c = ':' then
      -- ":[a-z_]+:": maximal name run, then a closing colon
      let name := rest.takeWhile isEmojiNameChar
      !name.isEmpty &&
        (match rest.drop name.length with
         | ':' :: _ => true
         | _ => false)
    else
      isEmojiCodepoint c

/-- `re.match(r"^([A-Z]{2,10}-\d+)", msg, re.IGNORECASE)` as a boolean.  With
`IGNORECASE` the class `[A-Z]` matches ASCII letters of either case; the
backtracking bounded repetition succeeds exactly when the maximal letter run
has length in `[2,10]` and is followed by `-` and a digit. -/
def ticketJiraMatch (msg : String) : Bool :=
  let cs := msg.data
  let k := (cs.takeWhile fun c => c.isAlpha).length
  2 ≤ k && k ≤ 10 &&
    (match cs.drop k with
     | '-' :: d :: _ => d.isDigit
     | _ => false)

/-- `re.match(r"^#(\d+)", msg, re.IGNORECASE)` as a boolean. -/
def ticketGithubMatch (msg : String) : Bool :=
  match msg.data with
  | '#' :: d :: _ => d.isDigit
  | _ => false

/-- `re.match(r"^\[([A-Z]{2,10}-\d+)\]", msg, re.IGNORECASE)` as a boolean:
`[`, then 2–10 letters, `-`, a nonempty digit run, `]`. -/
def ticketBracketMatch (msg : String) : Bool :=
  match msg.data with
  | '[' :: rest =>
    let k := (rest.takeWhile fun c => c.isAlpha).length
    2 ≤ k && k ≤ 10 &&
      (match rest.drop k with
       | '-' :: rest2 =>
         let m := (rest2.takeWhile fun c => c.isDigit).length
         1 ≤ m &&
           (match rest2.drop m with
            | ']' :: _ => true
            | _ => false)
       | _ => false)
  | _ => false

/-- A message matching any of the three `TICKET_PATTERNS` (the inner loop of
`_detect_pattern` breaks after the first hit, so each message is counted at
most once). -/
def ticketMatch (msg : String) : Bool :=
  ticketJiraMatch msg || ticketGithubMatch msg || ticketBracketMatch msg

/-- The conventional-count of `_detect_pattern`. -/
def conventionalCount (messages : List String) : Nat :=
  messages.countP isConventionalMsg

/-- The emoji-count of `_detect_pattern`. -/
def emojiCount (messages : List String) : Nat :=
  messages.countP emojiMatch

/-- The ticket-count of `_detect_pattern`. -/
def ticketCount (messages : List String) : Nat :=
  messages.countP ticketMatch

/-- `StyleExtractor._detect_pattern`: the single pass over the messages
accumulates the three counters above, then the categories are tested in the
fixed order conventional → emoji → ticket against the 30% threshold
(`count / total >= 0.3`, modelled as the exact rational comparison). -/
def detect_pattern (messages : List String) : StylePattern :=
  let total := messages.length
  if (conventionalCount messages : ℚ) / (total : ℚ) ≥ 3/10 then
    StylePattern.conventional
  else if (emojiCount messages : ℚ) / (total : ℚ) ≥ 3/10 then
    StylePattern.emoji
  else if (ticketCount messages : ℚ) / (total : ℚ) ≥ 3/10 then
    StylePattern.ticket
  else
    StylePattern.freeform

/-- ASCII `\w` character class (`[A-Za-z0-9_]`). -/
def isWordChar (c : Char) : Bool :=
  c.isAlpha || c.isDigit || c = '_'

/-- `re.compile(r"^\w+\(([^)]+)\):").match(msg)`, returning group 1 (the raw
scope text).  The word run and the `[^)]+` run are maximal, forced by the
required `(`, `)`, `:` delimiters that neither class can match. -/
def scopeOf (msg : String) : Option String :=
  let cs := msg.data
  let w := cs.takeWhile isWordChar
  if w.isEmpty then none
  else
    match cs.drop w.length with
    | '(' :: r2 =>
      let inner := r2.takeWhile (fun c => c ≠ ')')
      if inner.isEmpty then none
      else
        match r2.drop inner.length with
        | ')' :: ':' :: _ => some (String.mk inner)
        | _ => none
    | _ => none

/-- The `scopes` list accumulated by `_detect_scopes`: group 1 of each
matching message, lower-cased, in message order. -/
def scopesOf (messages : List String) : List String :=
  messages.filterMap fun m => (scopeOf m).map strLower

/-- `StyleExtractor._detect_scopes`: returns `(uses_scopes, common_scopes)`.
`uses_scopes` is the 20% test `len(scopes)/len(messages) >= 0.2`;
`common_scopes` is the 10 most common scopes. -/
def detect_scopes (messages : List String) : Bool × List String :=
  let scopes := scopesOf messages
  if scopes.isEmpty then (false, [])
  else
    ((scopes.length : ℚ) / (messages.length : ℚ) ≥ 1/5,
     mostCommonKeys 10 scopes)

/-- `StyleExtractor._detect_emoji`: at least 20% of messages start with an
emoji token. -/
def detect_emoji (messages : List String) : Bool :=
  (emojiCount messages : ℚ) / (messages.length : ℚ) ≥ 1/5

/-- The three `TICKET_PATTERNS` of `src/memory/extractor.py`, as
(pattern-source, matcher) pairs in priority order. -/
def TICKET_PATTERNS : List (String × (String → Bool)) :=
  [("^([A-Z]\x7b2,10\x7d-\\d+)", ticketJiraMatch),
   ("^#(\\d+)", ticketGithubMatch),
   ("^\\[([A-Z]\x7b2,10\x7d-\\d+)\\]", ticketBracketMatch)]

/-- `StyleExtractor._detect_ticket_pattern`: the first pattern (in fixed
order) matching at least 20% of messages, else `None`. -/
def detect_ticket_pattern (messages : List String) : Option String :=
  ((TICKET_PATTERNS.find? fun p =>
      (messages.countP p.2 : ℚ) / (messages.length : ℚ) ≥ 1/5).map
    Prod.fst)

/-- `StyleExtractor.extract_style`: empty input returns the default
`CommitStyle()`; otherwise the four detectors run on the message list. -/
def extract_style (commits : List CommitInfo) : CommitStyle :=
  if commits.isEmpty then defaultCommitStyle
  else
    let messages := commits.map (fun c => c.message)
    let pattern := detect_pattern messages
    let sc := detect_scopes messages
    let usesEmoji := detect_emoji messages
    let ticketPat := detect_ticket_pattern messages
    ⟨pattern, sc.1, sc.2, usesEmoji, ticketPat⟩

/-! ### Rounding (`round(x, 1)`)

CPython `round(x, 1)` rounds to the nearest tenth with ties going to the even
tenth (banker's rounding).  `roundHalfEven` is that integer rounding on exact
rationals; `roundTenth` applies it at one decimal place. -/

/-- Round a rational to the nearest integer, ties to even. -/
def roundHalfEven (q : ℚ) : ℤ :=
  if q - (⌊q⌋ : ℚ) < 1/2 then ⌊q⌋
  else if 1/2 < q - (⌊q⌋ : ℚ) then ⌊q⌋ + 1
  else if ⌊q⌋ % 2 = 0 then ⌊q⌋ else ⌊q⌋ + 1

/-- CPython `round(q, 1)` on exact rationals. -/
def roundTenth (q : ℚ) : ℚ :=
  ((roundHalfEven (10 * q) : ℤ) : ℚ) / 10

/-! ### Path helpers (`pathlib`) -/

/-- `PurePosixPath(p).name`: the final path component. -/
def pathName (p : String) : String :=
  match ((splitListOnChar '/' p.data).filter fun s => !s.isEmpty).getLast? with
  | some n => String.mk n
  | none => ""

/-- `PurePosixPath(p).suffix.lower()`: the `.ext` part of the name, empty when
the last dot is the first character or there is no dot
(`name.rfind(".")` must satisfy `0 < i < len(name) - 1`). -/
def fileSuffix (p : String) : String :=
  let name := pathName p
  let cs := name.data
  -- i = index of the last '.', found by scanning the reverse
  let revAfter := cs.reverse.takeWhile (fun c => c ≠ '.')
  if revAfter.length = cs.length then ""           -- no dot at all
  else
    let i := cs.length - revAfter.length - 1        -- index of the last dot
    if 0 < i ∧ i < cs.length - 1 then
      String.mk ((cs.drop i).map Char.toLower)
    else ""

/-- `PurePosixPath(p).parts` for the relative POSIX paths produced by git:
the `/`-separated components, with empty and `.` components normalized away,
preceded by a root part for absolute paths. -/
def pathParts (p : String) : List String :=
  let segs := ((splitListOnChar '/' p.data).filter
    fun s => !s.isEmpty && s ≠ ['.']).map String.mk
  match p.data with
  | '/' :: _ => "/" :: segs
  | _ => segs

/-! ### DNA extractor (`src/memory/extractor.py`, class `DNAExtractor`) -/

/-- `LANGUAGE_EXTENSIONS` table from `src/memory/extractor.py`. -/
def LANGUAGE_EXTENSIONS : List (String × String) :=
  [(".py", "Python"), (".js", "JavaScript"), (".ts", "TypeScript"),
   (".tsx", "TypeScript"), (".jsx", "JavaScript"), (".go", "Go"),
   (".rs", "Rust"), (".java", "Java"), (".kt", "Kotlin"),
   (".swift", "Swift"), (".rb", "Ruby"), (".php", "PHP"), (".c", "C"),
   (".cpp", "C++"), (".h", "C/C++"), (".cs", "C#"), (".scala", "Scala"),
   (".ex", "Elixir"), (".exs", "Elixir"), (".clj", "Clojure"),
   (".hs", "Haskell"), (".lua", "Lua"), (".r", "R"), (".sql", "SQL"),
   (".sh", "Shell"), (".bash", "Shell"), (".zsh", "Shell"),
   (".yml", "YAML"), (".yaml", "YAML"), (".json", "JSON"), (".xml", "XML"),
   (".html", "HTML"), (".css", "CSS"), (".scss", "SCSS"),
   (".md", "Markdown"), (".dockerfile", "Docker")]

/-- `LANGUAGE_EXTENSIONS.get(ext)`. -/
def extLookup (ext : String) : Option String :=
  (LANGUAGE_EXTENSIONS.find? fun p => p.1 = ext).map Prod.snd

/-- The stream of matched extensions tallied by `_detect_languages`
(`extension_counts`): for each commit whose `files_changed` is a list, the
lower-cased suffix of each file that appears in the extension table, in
traversal order.  Count-form commits contribute nothing (the `isinstance`
guard). -/
def matchedExtensions (commits : List CommitInfo) : List String :=
  commits.flatMap fun c =>
    match c.files_changed with
    | FilesChanged.paths l =>
      l.filterMap fun p =>
        if (extLookup (fileSuffix p)).isSome then some (fileSuffix p)
        else none
    | FilesChanged.count _ => []

/-- The per-file languages (`language_counts` tallies these): each matched
extension mapped through the table (`LANGUAGE_EXTENSIONS.get(ext, "Unknown")`). -/
def languageOccurrences (commits : List CommitInfo) : List String :=
  (matchedExtensions commits).map fun e => (extLookup e).getD "Unknown"

/-- The distinct languages in `language_counts` insertion order: language keys
are inserted while iterating `extension_counts.items()` (extension
first-occurrence order). -/
def languageKeys (commits : List CommitInfo) : List String :=
  keysInOrder ((keysInOrder (matchedExtensions commits)).map
    fun e => (extLookup e).getD "Unknown")

/-- `DNAExtractor._detect_languages`: empty result when no extension matched;
otherwise the languages in `most_common(10)` order, keeping those whose exact
share `(count/total)*100` is at least 1, with the stored percentage rounded to
one decimal. -/
def detect_languages (commits : List CommitInfo) : List LanguageBreakdown :=
  let occ := languageOccurrences commits
  if occ.isEmpty then []
  else
    let total := occ.length
    let sortedLangs :=
      (List.insertionSort (fun a b => occ.count b ≤ occ.count a)
        (languageKeys commits)).take 10
    sortedLangs.filterMap fun lang =>
      let pct : ℚ := (occ.count lang : ℚ) / (total : ℚ) * 100
      if pct ≥ 1 then some ⟨lang, roundTenth pct⟩ else none

/-- The `ProjectType` enum values with their `.value` strings, used to parse
the oracle's single-token reply. -/
def projectTypeValues : List (String × ProjectType) :=
  [("cli-tool", ProjectType.cliTool), ("web-app", ProjectType.webApp),
   ("web-framework", ProjectType.webFramework),
   ("library", ProjectType.library), ("api-service", ProjectType.apiService),
   ("mobile-app", ProjectType.mobileApp),
   ("data-pipeline", ProjectType.dataPipeline),
   ("unknown", ProjectType.unknown)]

/-- `DNAExtractor._detect_project_type`.  The LLM call is an oracle whose
outcome is the parameter `resp`: `none` models an API error or empty content
(swallowed), `some s` the returned token.  Empty language list short-circuits
to `unknown`; an unparseable token also yields `unknown`. -/
def detect_project_type (languages : List LanguageBreakdown)
    (resp : Option String) : ProjectType :=
  if languages.isEmpty then ProjectType.unknown
  else
    match resp with
    | none => ProjectType.unknown
    | some s =>
      match projectTypeValues.find? fun p => p.1 = strLower (strTrim s) with
      | some p => p.2
      | none => ProjectType.unknown

/-- `DNAExtractor.extract_dna` for the seeding pipeline call sites where
`repo_path` is `None` (framework detection then returns `[]` without touching
the filesystem).  `ptResp` is the project-type oracle outcome. -/
def extract_dna (ptResp : Option String) (commits : List CommitInfo) :
    CodebaseDNA :=
  let languages := detect_languages commits
  let frameworks : List String := []
  let primary := (languages.head?).map fun l => l.language
  ⟨primary, languages, frameworks,
   detect_project_type languages ptResp⟩

/-! ### Directory-area detection

`MemorySeeder._detect_primary_areas` and `CollaboratorProfiler._detect_areas`
iterate `commit.files_changed` directly (`for file_path in
commit.files_changed`).  When `files_changed` is the count form this raises
`TypeError: 'int' object is not iterable`, modelled as `none`. -/

/-- The area of one path: first two path segments joined by `/`, the single
segment at depth 1, skipped (`continue`) at depth 0. -/
def areaOf (p : String) : Option String :=
  match pathParts p with
  | p0 :: p1 :: _ => some (p0 ++ "/" ++ p1)
  | [p0] => some p0
  | [] => none

/-- The tallied area list over a commit list; `none` when iteration hits a
count-form `files_changed` (Python `TypeError`). -/
def areaOccurrences : List CommitInfo → Option (List String)
  | [] => some []
  | c :: rest =>
    match c.files_changed with
    | FilesChanged.count _ => none
    | FilesChanged.paths l => do
      let tail ← areaOccurrences rest
      some (l.filterMap areaOf ++ tail)

/-- `MemorySeeder._detect_primary_areas`: top-3 areas by frequency, or a
`TypeError` (`none`) on count-form input. -/
def detect_primary_areas (commits : List CommitInfo) :
    Option (List String) :=
  (areaOccurrences commits).map fun occ => mostCommonKeys 3 occ

/-- `CollaboratorProfiler._detect_areas`: identical tally, top 5. -/
def profiler_detect_areas (commits : List CommitInfo) :
    Option (List String) :=
  (areaOccurrences commits).map fun occ => mostCommonKeys 5 occ

/-! ### Conventional-commit parsing (`parse_conventional_commit`) -/

/-- `parse_conventional_commit` from `src/memory/extractor.py`: match
`^(\w+)(?:\(([^)]+)\))?:\s*(.+)$` (DOTALL), validate the type against
`CONVENTIONAL_TYPES`, and return `(type, scope, description)`;
on no match or unknown type return `(None, None, message)`.  The
backtracking structure is deterministic here: `\w+` is maximal (neither `(`
nor `:` is a word character), the optional scope group succeeds only as
`(nonempty-non-paren)` followed by `:`, and `\s*(.+)` matches exactly when a
character follows the colon, with `group(3).strip()` equal to trimming the
remainder. -/
def parse_conventional_commit (message : String) :
    Option String × Option String × String :=
  let cs := message.data
  let w := cs.takeWhile isWordChar
  let noMatch := ((none : Option String), (none : Option String), message)
  if w.isEmpty then noMatch
  else
    let afterWord := cs.drop w.length
    let parsed : Option (Option String × List Char) :=
      match afterWord with
      | '(' :: r2 =>
        let inner := r2.takeWhile (fun c => c ≠ ')')
        if inner.isEmpty then none
        else
          match r2.drop inner.length with
          | ')' :: ':' :: tail => some (some (String.mk inner), tail)
          | _ => none
      | ':' :: tail => some (none, tail)
      | _ => none
    match parsed with
    | none => noMatch
    | some (scope, tail) =>
      if tail.isEmpty then noMatch
      else
        let ctype := strLower (String.mk w)
        if CONVENTIONAL_TYPES.any (fun t => t = ctype) then
          (some ctype, scope.map strLower, strTrim (String.mk tail))
        else noMatch

/-! ### Embedding generator (`src/memory/embeddings.py`) -/

/-- An embedding vector (float components as exact rationals). -/
abbrev Emb := List ℚ

/-- The consecutive `texts[i : i + 100]` slices visited by the loop in
`generate_batch` (for `chunkSize = n`; the code uses 100). -/
def chunksOf (n : Nat) (l : List String) : List (List String) :=
  match l with
  | [] => []
  | a :: rest => (a :: rest.take (n - 1)) :: chunksOf n (rest.drop (n - 1))
termination_by l.length
decreasing_by
  simp only [List.length_cons, List.length_drop]
  omega

/-- `sorted(response.data, key=lambda x: x.index)`: stable sort of the
oracle's `(index, embedding)` items by index. -/
def sortByIndex (l : List (Nat × Emb)) : List (Nat × Emb) :=
  List.insertionSort (fun x y => x.1 ≤ y.1) l

/-- One oracle call per chunk, each chunk's items re-ordered by index before
concatenation; an oracle failure (`none`) propagates. -/
def generateChunks (oracle : List String → Option (List (Nat × Emb))) :
    List (List String) → Option (List Emb)
  | [] => some []
  | ch :: rest => do
    let resp ← oracle ch
    let tail ← generateChunks oracle rest
    some ((sortByIndex resp).map (fun x => x.2) ++ tail)

/-- `EmbeddingGenerator.generate_batch`.  The embedding oracle receives each
chunk of at most 100 texts and returns index-tagged vectors (in an order it
does not guarantee); errors propagate to the caller. -/
def generate_batch (oracle : List String → Option (List (Nat × Emb)))
    (texts : List String) : Option (List Emb) :=
  if texts.isEmpty then some [] else generateChunks oracle (chunksOf 100 texts)

/-- `f.split("/")[-1]`. -/
def lastPathComponent (f : String) : String :=
  match (splitListOnChar '/' f.data).getLast? with
  | some n => String.mk n
  | none => ""

/-- `format_commit_for_embedding` from `src/memory/embeddings.py`. -/
def format_commit_for_embedding (message : String)
    (commit_type scope : Option String) (files_changed : FilesChanged) :
    String :=
  let typeParts :=
    match commit_type with
    | some t => ["Type: " ++ t]
    | none => []
  let scopeParts :=
    match scope with
    | some s => ["Scope: " ++ s]
    | none => []
  let msgPart := ["Message: " ++ message]
  let fileParts :=
    match files_changed with
    | FilesChanged.paths l =>
      if l.isEmpty then []   -- falsy empty list fails the truthiness test
      else
        ["Files: " ++
          String.intercalate ", " ((l.take 5).map lastPathComponent)]
    | FilesChanged.count _ => []   -- not a list: isinstance guard fails
  String.intercalate " | " (typeParts ++ scopeParts ++ msgPart ++ fileParts)

/-! ### Memory store (`src/memory/store.py`)

Tables are lists of rows in insertion (rowid) order; `next*Id` are the
autoincrement counters.  Inserts check the constraints declared in
`SCHEMA_SQL` (plus the pydantic `score` range, which coincides with the SQL
`CHECK`), returning `none` for the `IntegrityError` the Python code would
raise; deletes execute the declared foreign-key actions. -/

/-- A row of the `repositories` table (`seeded_at` is a wall-clock timestamp
never used by the pipeline logic and is omitted). -/
structure RepositoryRow where
  id : Nat
  url : Option String
  name : String
  primary_language : Option String
  languages : List LanguageBreakdown
  frameworks : List String
  project_type : ProjectType
  style_pattern : StylePattern
  uses_scopes : Bool
  common_scopes : List String
  ticket_pattern : Option String
  comparison_repos : List String
  industry_percentile : Option ℚ
deriving DecidableEq, Repr

/-- A row of the `collaborators` table. -/
structure CollaboratorRow where
  id : Nat
  repo_id : Nat
  name : String
  email : Option String
  commit_count : Nat
  avg_score : Option ℚ
  primary_areas : List String
  area_summary : Option String
  roast_patterns : List String
deriving DecidableEq, Repr

/-- A row of the `exemplars` table. -/
structure ExemplarRow where
  id : Nat
  repo_id : Nat
  collaborator_id : Option Nat
  commit_hash : String
  message : String
  score : Nat
  commit_type : Option String
  scope : Option String
  embedding : Option Emb
deriving DecidableEq, Repr

/-- A row of the `antipatterns` table. -/
structure AntipatternRow where
  id : Nat
  repo_id : Nat
  collaborator_id : Option Nat
  pattern_type : AntipatternType
  example_message : Option String
  frequency : Nat
deriving DecidableEq, Repr

/-- The database state: the four tables plus their autoincrement counters. -/
structure Store where
  repositories : List RepositoryRow
  collaborators : List CollaboratorRow
  exemplars : List ExemplarRow
  antipatterns : List AntipatternRow
  nextRepoId : Nat
  nextCollabId : Nat
  nextExemplarId : Nat
  nextAntipatternId : Nat
deriving DecidableEq, Repr

/-- `RepositoryCreate` from `src/memory/schemas.py`. -/
structure RepositoryCreate where
  url : Option String
  name : String
  primary_language : Option String
  languages : List LanguageBreakdown
  frameworks : List String
  project_type : ProjectType
  style_pattern : StylePattern
  uses_scopes : Bool
  common_scopes : List String
  ticket_pattern : Option String
deriving DecidableEq, Repr

/-- `CollaboratorCreate` from `src/memory/schemas.py`. -/
structure CollaboratorCreate where
  repo_id : Nat
  name : String
  email : Option String
  commit_count : Nat
  avg_score : Option ℚ
  primary_areas : List String
  area_summary : Option String
  roast_patterns : List String
deriving DecidableEq, Repr

/-- `ExemplarCreate` from `src/memory/schemas.py`. -/
structure ExemplarCreate where
  repo_id : Nat
  collaborator_id : Option Nat
  commit_hash : String
  message : String
  score : Nat
  commit_type : Option String
  scope : Option String
  embedding : Option Emb
deriving DecidableEq, Repr

/-- `AntipatternCreate` from `src/memory/schemas.py`. -/
structure AntipatternCreate where
  repo_id : Nat
  collaborator_id : Option Nat
  pattern_type : AntipatternType
  example_message : Option String
  frequency : Nat
deriving DecidableEq, Repr

/-- `MemoryStore.get_repository_by_name`: `SELECT * FROM repositories WHERE
name = ?` + `fetchone()` — the first matching row in rowid order. -/
def get_repository_by_name (s : Store) (name : String) :
    Option RepositoryRow :=
  s.repositories.find? fun r => r.name = name

/-- `MemoryStore.create_repository`: `INSERT INTO repositories ...`.  Fails
(`IntegrityError`, modelled `none`) when the `UNIQUE` `url` column would be
violated (SQL `NULL`s never conflict). -/
def create_repository (s : Store) (d : RepositoryCreate) :
    Option (RepositoryRow × Store) :=
  if d.url.isSome && s.repositories.any (fun r => r.url = d.url) then none
  else
    let row : RepositoryRow :=
      ⟨s.nextRepoId, d.url, d.name, d.primary_language, d.languages,
       d.frameworks, d.project_type, d.style_pattern, d.uses_scopes,
       d.common_scopes, d.ticket_pattern, [], none⟩
    some (row,
      { s with repositories := s.repositories ++ [row],
               nextRepoId := s.nextRepoId + 1 })

/-- The `ON DELETE SET NULL` action applied to a `collaborator_id` pointer
when the collaborators in `dead` are deleted. -/
def setNullIfDead (dead : List Nat) (oc : Option Nat) : Option Nat :=
  match oc with
  | some cid => if cid ∈ dead then none else some cid
  | none => none

/-- `MemoryStore.delete_repository`: `DELETE FROM repositories WHERE id = ?`
with `PRAGMA foreign_keys = ON`.  The schema's `ON DELETE CASCADE` removes
every collaborator/exemplar/antipattern row of the repository; deleting those
collaborators triggers `ON DELETE SET NULL` on any surviving row (of another
repository) that referenced them. -/
def delete_repository (s : Store) (rid : Nat) : Store :=
  let deadCollabs :=
    (s.collaborators.filter fun c => c.repo_id = rid).map fun c => c.id
  { s with
    repositories := s.repositories.filter fun r => r.id ≠ rid,
    collaborators := s.collaborators.filter fun c => c.repo_id ≠ rid,
    exemplars := (s.exemplars.filter fun e => e.repo_id ≠ rid).map fun e =>
      { e with collaborator_id := setNullIfDead deadCollabs e.collaborator_id },
    antipatterns :=
      (s.antipatterns.filter fun a => a.repo_id ≠ rid).map fun a =>
        { a with
          collaborator_id := setNullIfDead deadCollabs a.collaborator_id } }

/-- `DELETE FROM collaborators WHERE id = ?` under `SCHEMA_SQL`: the
`collaborator_id` foreign keys of `exemplars` and `antipatterns` are declared
`ON DELETE SET NULL`, so referencing rows survive with a nulled pointer.
(`MemoryStore` exposes no direct method for this; the semantics is fixed by
the schema and exercised through cascades.) -/
def delete_collaborator (s : Store) (cid : Nat) : Store :=
  { s with
    collaborators := s.collaborators.filter fun c => c.id ≠ cid,
    exemplars := s.exemplars.map fun e =>
      if e.collaborator_id = some cid then { e with collaborator_id := none }
      else e,
    antipatterns := s.antipatterns.map fun a =>
      if a.collaborator_id = some cid then { a with collaborator_id := none }
      else a }

/-- `MemoryStore.create_collaborator`.  Fails on the `UNIQUE(repo_id, name)`
constraint or a dangling `repo_id` foreign key. -/
def create_collaborator (s : Store) (d : CollaboratorCreate) :
    Option (CollaboratorRow × Store) :=
  if !(s.repositories.any fun r => r.id = d.repo_id) then none
  else if s.collaborators.any
      (fun c => c.repo_id = d.repo_id && c.name = d.name) then none
  else
    let row : CollaboratorRow :=
      ⟨s.nextCollabId, d.repo_id, d.name, d.email, d.commit_count,
       d.avg_score, d.primary_areas, d.area_summary, d.roast_patterns⟩
    some (row,
      { s with collaborators := s.collaborators ++ [row],
               nextCollabId := s.nextCollabId + 1 })

/-- `MemoryStore.create_exemplar`.  Fails when the pydantic/`CHECK` score
range `[8,10]` is violated, on `UNIQUE(repo_id, commit_hash)`, or on a
dangling foreign key. -/
def create_exemplar (s : Store) (d : ExemplarCreate) :
    Option (ExemplarRow × Store) :=
  if !(8 ≤ d.score && d.score ≤ 10) then none
  else if !(s.repositories.any fun r => r.id = d.repo_id) then none
  else if d.collaborator_id.isSome &&
      !(s.collaborators.any fun c => some c.id = d.collaborator_id) then none
  else if s.exemplars.any
      (fun e => e.repo_id = d.repo_id && e.commit_hash = d.commit_hash) then
    none
  else
    let row : ExemplarRow :=
      ⟨s.nextExemplarId, d.repo_id, d.collaborator_id, d.commit_hash,
       d.message, d.score, d.commit_type, d.scope, d.embedding⟩
    some (row,
      { s with exemplars := s.exemplars ++ [row],
               nextExemplarId := s.nextExemplarId + 1 })

/-- `MemoryStore.create_antipattern`.  Fails only on a dangling foreign
key (the table has no `UNIQUE` or `CHECK` constraints). -/
def create_antipattern (s : Store) (d : AntipatternCreate) :
    Option (AntipatternRow × Store) :=
  if !(s.repositories.any fun r => r.id = d.repo_id) then none
  else if d.collaborator_id.isSome &&
      !(s.collaborators.any fun c => some c.id = d.collaborator_id) then none
  else
    let row : AntipatternRow :=
      ⟨s.nextAntipatternId, d.repo_id, d.collaborator_id, d.pattern_type,
       d.example_message, d.frequency⟩
    some (row,
      { s with antipatterns := s.antipatterns ++ [row],
               nextAntipatternId := s.nextAntipatternId + 1 })

/-- `MemoryStore.count_antipatterns`. -/
def count_antipatterns (s : Store) (rid : Nat) : Nat :=
  (s.antipatterns.filter fun a => a.repo_id = rid).length

/-- `MemoryStore.list_exemplars(repo_id)` as called by
`find_similar_exemplars` (no `commit_type` filter, no `LIMIT`):
`SELECT * FROM exemplars WHERE repo_id = ? ORDER BY score DESC`. -/
def list_exemplars (s : Store) (rid : Nat) : List ExemplarRow :=
  List.insertionSort (fun a b => b.score ≤ a.score)
    (s.exemplars.filter fun e => e.repo_id = rid)

/-- The squared Euclidean norm of a vector (sum of squared components). -/
def sumSq (v : List ℚ) : ℚ :=
  (v.map fun x => x * x).sum

/-- The dot product of two vectors (`np.dot` truncates at the shorter length
only for equal-length inputs in practice; `zipWith` models it). -/
def dotProduct (a b : List ℚ) : ℚ :=
  (List.zipWith (fun x y => x * y) a b).sum

open Classical in
/-- `MemoryStore._cosine_similarity`: `dot / (norm_a * norm_b)`, guarded to
`0.0` when either norm is zero.  Norms are real square roots, so the value
lives in `ℝ`. -/
noncomputable def cosine_similarity (a b : List ℚ) : ℝ :=
  let normA : ℝ := Real.sqrt ((sumSq a : ℝ))
  let normB : ℝ := Real.sqrt ((sumSq b : ℝ))
  if normA = 0 ∨ normB = 0 then 0
  else ((dotProduct a b : ℚ) : ℝ) / (normA * normB)

open Classical in
/-- The `results` list built by the scan in
`MemoryStore.find_similar_exemplars`: one `(exemplar, similarity)` pair per
exemplar of the repository that has a stored embedding (`continue` skips the
rest), in `list_exemplars` order. -/
noncomputable def similarity_results (s : Store) (rid : Nat) (query : Emb) :
    List (ExemplarRow × ℝ) :=
  (list_exemplars s rid).filterMap fun e =>
    match e.embedding with
    | some v => some (e, cosine_similarity query v)
    | none => none

open Classical in
/-- `MemoryStore.find_similar_exemplars`: early-out on an empty exemplar
list, then `results.sort(key=lambda x: x[1], reverse=True)` (stable,
descending by similarity) truncated to `limit`. -/
noncomputable def find_similar_exemplars (s : Store) (rid : Nat)
    (query : Emb) (lim : Nat) : List (ExemplarRow × ℝ) :=
  if (list_exemplars s rid).isEmpty then []
  else
    (List.insertionSort (fun x y => y.2 ≤ x.2)
      (similarity_results s rid query)).take lim

/-! ### Commit analyzer (`src/agents/analyzer.py`)

`analyze_commit` issues one scoring-oracle call and wraps the parsed reply
together with the input commit.  The oracle (network + JSON decode) is the
only fallible part; `oracle c = none` models that call raising. -/

/-- The parsed scoring-oracle reply (`score`, `feedback`, `suggestion`). -/
structure ScoreResp where
  score : Nat
  feedback : String
  suggestion : Option String
deriving DecidableEq, Repr

/-- `AnalysisResult` from `src/agents/analyzer.py`. -/
structure AnalysisResult where
  commit : CommitInfo
  score : Nat
  feedback : String
  suggestion : Option String
deriving DecidableEq, Repr

/-- `CommitAnalyzer.analyze_commit` parameterized by the scoring oracle. -/
def analyze_commit (oracle : CommitInfo → Option ScoreResp)
    (c : CommitInfo) : Option AnalysisResult :=
  (oracle c).map fun r => ⟨c, r.score, r.feedback, r.suggestion⟩

/-- `MemorySeeder._analyze_commits` (phase 5): score each commit in input
order; a commit whose scoring call raises is skipped (`continue`). -/
def analyze_commits (oracle : CommitInfo → Option ScoreResp) :
    List CommitInfo → List AnalysisResult
  | [] => []
  | c :: rest =>
    match analyze_commit oracle c with
    | some r => r :: analyze_commits oracle rest
    | none => analyze_commits oracle rest

/-- `score_map = {r.commit.hash: r.score for r in results}` lookup: a dict
comprehension keeps the last binding for a duplicated key. -/
def scoreMapLookup (results : List AnalysisResult) (h : String) :
    Option Nat :=
  ((results.filter fun r => r.commit.hash = h).getLast?).map fun r => r.score

/-- The `scores_by_author[author]` list built in
`MemorySeeder._profile_contributors`: iterate the full commit list and append
`score_map[commit.hash]` whenever the hash has a score. -/
def scores_by_author (commits : List CommitInfo)
    (results : List AnalysisResult) (author : String) : List Nat :=
  (commits.filter fun c => c.author = author).filterMap fun c =>
    scoreMapLookup results c.hash

/-! ### Antipattern extractor (`src/memory/extractor.py`,
class `AntipatternExtractor`) -/

/-- Substring containment over character lists (Python `pat in s`). -/
def containsSub (pat : List Char) : List Char → Bool
  | [] => pat.isEmpty
  | c :: rest => pat.isPrefixOf (c :: rest) || containsSub pat rest

/-- The WIP test of `_find_wip_chain`: `"wip" in msg_lower or msg_lower ==
"work in progress"` where `msg_lower = message.lower().strip()`. -/
def isWipMsg (msg : String) : Bool :=
  let ml := strTrim (strLower msg)
  containsSub "wip".data ml.data || ml = "work in progress"

/-- The loop state of `_find_wip_chain`: (current run, best run, example
message that ended the first best run). -/
def wipChainLoop : List CommitInfo → Nat → Nat → String → Nat × String
  | [], _, mx, ex => (mx, ex)
  | c :: rest, cur, mx, ex =>
    if isWipMsg c.message then
      let cur' := cur + 1
      if mx < cur' then wipChainLoop rest cur' cur' c.message
      else wipChainLoop rest cur' mx ex
    else wipChainLoop rest 0 mx ex

/-- `AntipatternExtractor._find_wip_chain`: the longest contiguous WIP run,
reported only at length ≥ 3. -/
def find_wip_chain (commits : List CommitInfo) : Option (String × Nat) :=
  let r := wipChainLoop commits 0 0 ""
  if 3 ≤ r.1 then some (r.2, r.1) else none

/-- `message.strip().split()`: whitespace-separated words. -/
def splitWords (msg : String) : List String :=
  ((splitListWs (trimList msg.data)).filter fun w => !w.isEmpty).map String.mk

/-- One-word test of `_count_one_word`. -/
def isOneWordMsg (msg : String) : Bool :=
  (splitWords msg).length = 1

/-- `"^asdf+$"`: `asd` followed by one or more `f`. -/
def isAsdfMsg (m : List Char) : Bool :=
  match m with
  | 'a' :: 's' :: 'd' :: rest => !rest.isEmpty && rest.all (fun c => c = 'f')
  | _ => false

/-- The fixed-string members of `VAGUE_PATTERNS` (each an exactly anchored
`^word$` regex; `updates?`, `changes?`, `minor changes?` expanded). -/
def VAGUE_EXACT : List String :=
  ["fix", "fixed", "update", "updates", "change", "changes", "stuff", "misc",
   "wip", "work in progress", "fixed bug", "bug fix", "minor",
   "minor change", "minor changes", "cleanup", "clean up", "refactor",
   "test", "testing", "tmp", "temp"]

/-- A lowered, stripped message matching some `VAGUE_PATTERNS` entry
(the two non-literal patterns are `^asdf+$` and `^\.+$`). -/
def isVagueMsg (msg : String) : Bool :=
  let ml := strTrim (strLower msg)
  VAGUE_EXACT.any (fun v => v = ml) || isAsdfMsg ml.data ||
    (!ml.data.isEmpty && ml.data.all fun c => c = '.')

/-- `_count_one_word` / `_count_vague` both return (first matching example,
match count); the loop keeps the first example and counts all matches. -/
def exampleAndCount (p : CommitInfo → Bool) (commits : List CommitInfo) :
    String × Nat :=
  (((commits.find? p).map fun c => c.message).getD "", commits.countP p)

/-- `AntipatternExtractor._analyze_author_commits`: up to three
(type, example, count) tuples for one author's commits. -/
def analyze_author_commits (commits : List CommitInfo) :
    List (AntipatternType × String × Nat) :=
  let wipPart :=
    match find_wip_chain commits with
    | some (ex, n) => [(AntipatternType.wipChain, ex, n)]
    | none => []
  let ow := exampleAndCount (fun c => isOneWordMsg c.message) commits
  let owPart :=
    if 3 ≤ ow.2 then [(AntipatternType.oneWord, ow.1, ow.2)] else []
  let vg := exampleAndCount (fun c => isVagueMsg c.message) commits
  let vgPart :=
    if 3 ≤ vg.2 then [(AntipatternType.vague, vg.1, vg.2)] else []
  wipPart ++ owPart ++ vgPart

/-- `AntipatternExtractor.extract_antipatterns` viewed as a lookup: the
tuples for one author (the dict groups commits by author with exact string
equality; a missing author and an empty tuple list are both `[]`). -/
def extract_antipatterns (commits : List CommitInfo) (author : String) :
    List (AntipatternType × String × Nat) :=
  analyze_author_commits (commits.filter fun c => c.author = author)

/-! ### Memory seeder (`src/memory/seeder.py`) -/

/-- `SeedingResult` from `src/memory/seeder.py`. -/
structure SeedingResult where
  repo_id : Nat
  repo_name : String
  commit_count : Nat
  average_score : ℚ
  exemplar_count : Nat
  collaborator_count : Nat
  antipattern_count : Nat
  has_roasts : Bool
deriving DecidableEq, Repr

/-- The `.value` string of an `AntipatternType` (used in the roast
f-string and round-tripped through `AntipatternType(pattern_type)`). -/
def apTypeValue : AntipatternType → String
  | AntipatternType.wipChain => "wip-chain"
  | AntipatternType.oneWord => "one-word"
  | AntipatternType.vague => "vague"
  | AntipatternType.noContext => "no-context"
  | AntipatternType.tooLong => "too-long"
  | AntipatternType.capsAbuse => "caps-abuse"

/-- The roast line `f"{count}x {pattern_type}: '{example}'"`. -/
def roastLine (t : AntipatternType) (ex : String) (cnt : Nat) : String :=
  let q := String.singleton (Char.ofNat 39)
  toString cnt ++ "x " ++ apTypeValue t ++ ": " ++ q ++ ex ++ q

/-- The text embedded for one exemplar in `_extract_exemplars`. -/
def exemplarText (r : AnalysisResult) : String :=
  let p := parse_conventional_commit r.commit.message
  format_commit_for_embedding r.commit.message p.1 p.2.1
    r.commit.files_changed

/-- The insertion loop of `_extract_exemplars`: one `create_exemplar` per
(result, embedding) pair; a storage failure propagates. -/
def insert_exemplars (rid : Nat) :
    List (AnalysisResult × Emb) → Store → Option Store
  | [], s => some s
  | (r, emb) :: rest, s => do
    let p := parse_conventional_commit r.commit.message
    let x ← create_exemplar s
      ⟨rid, none, r.commit.hash, r.commit.message, r.score, p.1, p.2.1,
       some emb⟩
    insert_exemplars rid rest x.2

/-- `MemorySeeder._extract_exemplars` (phase 6): filter results at the score
threshold, batch-embed their formatted texts, persist them zipped
index-for-index, and return the exemplar count. -/
def extract_exemplars
    (embedOracle : List String → Option (List (Nat × Emb)))
    (results : List AnalysisResult) (rid threshold : Nat) (s : Store) :
    Option (Nat × Store) :=
  let exs := results.filter fun r => threshold ≤ r.score
  if exs.isEmpty then some (0, s)
  else do
    let embeddings ← generate_batch embedOracle (exs.map exemplarText)
    let s' ← insert_exemplars rid (exs.zip embeddings) s
    some (exs.length, s')

/-- The antipattern-row insertion loop of `_profile_contributors`. -/
def insert_antipatterns (rid cid : Nat) :
    List (AntipatternType × String × Nat) → Store → Option Store
  | [], s => some s
  | (t, ex, cnt) :: rest, s => do
    let x ← create_antipattern s ⟨rid, some cid, t, some ex, cnt⟩
    insert_antipatterns rid cid rest x.2

/-- The per-author body of the `_profile_contributors` loop, iterated over
the distinct authors in first-occurrence order; threads the store and the
`has_roasts` flag. -/
def profileLoop (rid : Nat) (commits : List CommitInfo)
    (results : List AnalysisResult)
    (apsOf : String → List (AntipatternType × String × Nat)) :
    List String → Store → Bool → Option (Store × Bool)
  | [], s, hr => some (s, hr)
  | author :: rest, s, hr => do
    let authorCommits := commits.filter fun c => c.author = author
    let scores := scores_by_author commits results author
    let avg : Option ℚ :=
      if scores.isEmpty then none
      else some ((scores.map fun n => (n : ℚ)).sum / (scores.length : ℚ))
    let areas ← detect_primary_areas authorCommits
    let aps := apsOf author
    let roasts := aps.map fun p => roastLine p.1 p.2.1 p.2.2
    let collab ← create_collaborator s
      ⟨rid, author, none, authorCommits.length, avg, areas, none, roasts⟩
    let s2 ← insert_antipatterns rid collab.1.id aps collab.2
    profileLoop rid commits results apsOf rest s2 (hr || !aps.isEmpty)

/-- `MemorySeeder._profile_contributors` (phase 7): group the original commit
list by author, optionally extract antipatterns, and persist one collaborator
(plus antipattern rows) per author.  Returns (author count, has_roasts). -/
def profile_contributors (commits : List CommitInfo)
    (results : List AnalysisResult) (rid : Nat) (includeRoasts : Bool)
    (s : Store) : Option ((Nat × Bool) × Store) := do
  let authors := keysInOrder (commits.map fun c => c.author)
  let apsOf : String → List (AntipatternType × String × Nat) :=
    if includeRoasts then extract_antipatterns commits else fun _ => []
  let r ← profileLoop rid commits results apsOf authors s false
  some ((authors.length, r.2), r.1)

/-- `MemorySeeder.seed` parameterized by the three oracle outcomes
(`ptResp` for project-type classification, `scoreOracle` for phase 5,
`embedOracle` for phase 6).  Market comparison (phase 8) is a no-op in the
source (`include_market_comparison` only drives progress events).  The
returned `none` models any propagated exception (storage or embedding
errors); progress events carry no state and are not modelled. -/
def seed (ptResp : Option String)
    (scoreOracle : CommitInfo → Option ScoreResp)
    (embedOracle : List String → Option (List (Nat × Emb)))
    (s : Store) (commits : List CommitInfo) (repoName : String)
    (repoUrl : Option String) (threshold : Nat)
    (includeRoasts includeMarket : Bool) :
    Option (SeedingResult × Store) := do
  -- re-seed: delete the existing repository (and cascade) first
  let s0 :=
    match get_repository_by_name s repoName with
    | some existing => delete_repository s existing.id
    | none => s
  let dna := extract_dna ptResp commits
  let style := extract_style commits
  let repo ← create_repository s0
    ⟨repoUrl, repoName, dna.primary_language, dna.languages, dna.frameworks,
     dna.project_type, style.pattern, style.uses_scopes, style.common_scopes,
     style.ticket_pattern⟩
  let results := analyze_commits scoreOracle commits
  let avg : ℚ :=
    if results.isEmpty then 0
    else ((results.map fun r => (r.score : ℚ)).sum / (results.length : ℚ))
  let ex ← extract_exemplars embedOracle results repo.1.id threshold repo.2
  let prof ← profile_contributors commits results repo.1.id includeRoasts ex.2
  let apCount := count_antipatterns prof.2 repo.1.id
  some (⟨repo.1.id, repoName, commits.length, avg, ex.1, prof.1.1, apCount,
         prof.1.2⟩, prof.2)


/-! ### Concrete instances used in the claim theorems -/

/-- A commit whose `files_changed` is the count form. -/
def mkMsgCommit (h m a : String) : CommitInfo :=
  ⟨h, h, m, a, FilesChanged.count 1⟩

/-- The spec scenario message set for style classification. -/
def c4Scenario : List CommitInfo :=
  [mkMsgCommit "a1" "feat(auth): add login" "A",
   mkMsgCommit "a2" "fix(api): handle rate limit" "B",
   mkMsgCommit "a3" "docs: update README" "C"]

/-- A message set where the ticket count (7/10) beats the conventional count
(3/10) but conventional still wins by positional priority. -/
def c4Priority : List String :=
  ["feat: a", "fix: b", "docs: c", "ABC-1 x", "ABC-2 x", "ABC-3 x",
   "ABC-4 x", "ABC-5 x", "ABC-6 x", "ABC-7 x"]

/-- Six commits, exactly one scoped: scope share 1/6 is below the 20%
threshold, yet a scope exists. -/
def c10Demo : List CommitInfo :=
  [mkMsgCommit "b1" "feat(auth): add login" "A",
   mkMsgCommit "b2" "wrote code" "A",
   mkMsgCommit "b3" "more code" "A",
   mkMsgCommit "b4" "other work" "A",
   mkMsgCommit "b5" "further work" "A",
   mkMsgCommit "b6" "final touches" "A"]

/-- A commit whose `files_changed` is a bare count. -/
def c5CountCommit : CommitInfo :=
  ⟨"c5h", "c5h", "fix things", "Dana", FilesChanged.count 3⟩

/-- One commit touching six files of six different languages: each language
share is 1/6, and the six stored percentages round to 16.7 each. -/
def c6Commits : List CommitInfo :=
  [⟨"d1", "d1", "add everything", "Eve",
    FilesChanged.paths ["a.py", "b.js", "c.go", "d.rs", "e.rb", "f.php"]⟩]

/-- Two commits sharing one hash: the first (author A) fails scoring, the
second (author B) scores 5. -/
def c3FailCommit : CommitInfo := ⟨"h", "h", "bad one", "A", FilesChanged.paths []⟩

def c3OkCommit : CommitInfo := ⟨"h", "h", "good one", "B", FilesChanged.paths []⟩

/-- Scoring oracle for the duplicated-hash pair: fails on author A's commit. -/
def c3DupOracle : CommitInfo → Option ScoreResp :=
  fun c => if c.message = "good one" then some ⟨5, "ok", none⟩ else none

/-- Three distinct-hash commits; the middle one fails scoring. -/
def c3WitCommits : List CommitInfo :=
  [⟨"w1", "w1", "feat: x", "A", FilesChanged.paths ["a.py"]⟩,
   ⟨"w2", "w2", "broken", "A", FilesChanged.paths ["b.py"]⟩,
   ⟨"w3", "w3", "fix: y", "B", FilesChanged.paths ["c.py"]⟩]

def c3WitOracle : CommitInfo → Option ScoreResp :=
  fun c => if c.message = "broken" then none else some ⟨9, "fine", none⟩

/-- A bare repository row. -/
def plainRepoRow (i : Nat) (n : String) : RepositoryRow :=
  ⟨i, none, n, none, [], [], ProjectType.unknown, StylePattern.freeform,
   false, [], none, [], none⟩

/-- A store holding two repository rows that share the name `"x"` (the schema
does not declare `name` UNIQUE, and `create_repository` accepts this). -/
def c2DupStore : Store :=
  ⟨[plainRepoRow 1 "x", plainRepoRow 2 "x"], [], [], [], 3, 1, 1, 1⟩

def noScoreOracle : CommitInfo → Option ScoreResp := fun _ => none

def emptyEmbedOracle : List String → Option (List (Nat × Emb)) :=
  fun _ => some []

/-- A store with one repository `"x"` and one collaborator of that
repository. -/
def c2WitStore : Store :=
  ⟨[plainRepoRow 1 "x"], [⟨1, 1, "Alice", none, 2, none, [], none, []⟩],
   [], [], 2, 2, 1, 1⟩

/-- The autoincrement invariant of the `repositories` table: every stored id
is below the counter (always true of states produced through the schema). -/
def Store.ReposFresh (s : Store) : Prop :=
  ∀ r ∈ s.repositories, r.id < s.nextRepoId

/-- An exemplar referencing collaborator 1. -/
def c1Exemplar : ExemplarRow := ⟨1, 1, some 1, "h1", "msg", 9, none, none, none⟩

/-- A store with one repository, one collaborator, one exemplar and one
antipattern referencing the collaborator. -/
def c1Store : Store :=
  ⟨[plainRepoRow 1 "x"], [⟨1, 1, "Alice", none, 2, none, [], none, []⟩],
   [c1Exemplar], [⟨1, 1, some 1, AntipatternType.vague, some "fix", 3⟩],
   2, 2, 2, 2⟩

/-- The `(index, embedding)` list the embedding oracle is specified to send
back for a chunk: each text's vector tagged with its position in the chunk
(in some order; `indexedEmbeds` is the in-order reference). -/
def indexedEmbeds (f : String → Emb) (ch : List String) : List (Nat × Emb) :=
  (ch.map f).enum

/-- A batch of 150 texts. -/
def c7Texts : List String := List.replicate 150 "t"

def c7F : String → Emb := fun _ => [1]

/-- An adversarial oracle that answers every chunk in reversed index order. -/
def c7Oracle : List String → Option (List (Nat × Emb)) :=
  fun ch => some ((indexedEmbeds c7F ch).reverse)

/-! ## Shared lemmas -/

/-- The 30% policy comparison as an integer inequality (for a nonempty
message list). -/
theorem threshold_3_10 (c t : Nat) (ht : 0 < t) :
    ((3:ℚ)/10 ≤ (c : ℚ) / (t : ℚ)) ↔ 3 * t ≤ 10 * c := by
  have ht' : (0:ℚ) < (t:ℚ) := by exact_mod_cast ht
  rw [div_le_div_iff (by norm_num) ht']
  constructor
  · intro h
    have h2 : (((3 * t : Nat)) : ℚ) ≤ ((10 * c : Nat) : ℚ) := by push_cast; linarith
    exact_mod_cast h2
  · intro h
    have h2 : (((3 * t : Nat)) : ℚ) ≤ ((10 * c : Nat) : ℚ) := by exact_mod_cast h
    push_cast at h2; linarith

/-- The 20% policy comparison as an integer inequality. -/
theorem threshold_1_5 (c t : Nat) (ht : 0 < t) :
    ((1:ℚ)/5 ≤ (c : ℚ) / (t : ℚ)) ↔ t ≤ 5 * c := by
  have ht' : (0:ℚ) < (t:ℚ) := by exact_mod_cast ht
  rw [div_le_div_iff (by norm_num) ht']
  constructor
  · intro h
    have h2 : ((t : Nat) : ℚ) ≤ ((5 * c : Nat) : ℚ) := by push_cast; linarith
    exact_mod_cast h2
  · intro h
    have h2 : ((t : Nat) : ℚ) ≤ ((5 * c : Nat) : ℚ) := by exact_mod_cast h
    push_cast at h2; linarith

theorem keysInOrderAux_mem (l : List String) :
    ∀ (seen : List String) (x : String),
      x ∈ keysInOrderAux seen l ↔ x ∈ l ∧ x ∉ seen := by
  induction l with
  | nil => simp [keysInOrderAux]
  | cons a rest ih =>
    intro seen x
    by_cases ha : a ∈ seen
    · simp only [keysInOrderAux, if_pos ha, ih]
      constructor
      · rintro ⟨hx, hs⟩
        exact ⟨List.mem_cons_of_mem _ hx, hs⟩
      · rintro ⟨hx, hs⟩
        rcases List.mem_cons.mp hx with rfl | hx
        · exact absurd ha hs
        · exact ⟨hx, hs⟩
    · simp only [keysInOrderAux, if_neg ha]
      constructor
      · intro hx
        rcases List.mem_cons.mp hx with rfl | hx
        · exact ⟨List.mem_cons_self _ _, ha⟩
        · have h2 := (ih _ _).mp hx
          exact ⟨List.mem_cons_of_mem _ h2.1,
            fun hs => h2.2 (List.mem_cons_of_mem _ hs)⟩
      · rintro ⟨hx, hs⟩
        rcases List.mem_cons.mp hx with rfl | hx
        · exact List.mem_cons_self _ _
        · by_cases hxa : x = a
          · subst hxa; exact List.mem_cons_self _ _
          · exact List.mem_cons_of_mem _
              ((ih _ _).mpr ⟨hx, by simp [List.mem_cons, hxa, hs]⟩)

theorem keysInOrder_mem (l : List String) (x : String) :
    x ∈ keysInOrder l ↔ x ∈ l := by
  simp [keysInOrder, keysInOrderAux_mem]

theorem keysInOrder_subset (l : List String) : keysInOrder l ⊆ l :=
  fun _ hx => (keysInOrder_mem l _).mp hx

theorem keysInOrderAux_nodup (l : List String) :
    ∀ seen : List String, (keysInOrderAux seen l).Nodup := by
  induction l with
  | nil => intro seen; simp [keysInOrderAux]
  | cons a rest ih =>
    intro seen
    by_cases ha : a ∈ seen
    · simpa [keysInOrderAux, ha] using ih seen
    · simp only [keysInOrderAux, if_neg ha]
      refine List.nodup_cons.mpr ⟨?_, ih _⟩
      intro hmem
      exact ((keysInOrderAux_mem rest _ a).mp hmem).2 (List.mem_cons_self _ _)

theorem keysInOrder_nodup (l : List String) : (keysInOrder l).Nodup :=
  keysInOrderAux_nodup l []

theorem keysInOrder_eq_nil_iff (l : List String) :
    keysInOrder l = [] ↔ l = [] := by
  cases l with
  | nil => simp [keysInOrder, keysInOrderAux]
  | cons a rest => simp [keysInOrder, keysInOrderAux]

/-- `keysInOrder l` is a permutation of `l.dedup` (both list the distinct
elements of `l` without repetition). -/
theorem keysInOrder_perm_dedup (l : List String) :
    (keysInOrder l).Perm l.dedup := by
  rw [List.perm_ext_iff_of_nodup (keysInOrder_nodup l) l.nodup_dedup]
  intro x
  rw [keysInOrder_mem, List.mem_dedup]

/-- `mostCommonKeys` output is pairwise sorted by descending count. -/
theorem mostCommonKeys_sorted (n : Nat) (l : List String) :
    (mostCommonKeys n l).Pairwise fun a b => l.count b ≤ l.count a := by
  haveI : IsTotal String (fun a b => l.count b ≤ l.count a) :=
    ⟨fun a b => le_total _ _⟩
  haveI : IsTrans String (fun a b => l.count b ≤ l.count a) :=
    ⟨fun _ _ _ h1 h2 => le_trans h2 h1⟩
  exact List.Pairwise.sublist (List.take_sublist _ _)
    (List.sorted_insertionSort _ _)

theorem mostCommonKeys_length_le (n : Nat) (l : List String) :
    (mostCommonKeys n l).length ≤ n := by
  simpa [mostCommonKeys] using List.length_take_le n _

theorem mostCommonKeys_eq_nil_iff (n : Nat) (hn : 0 < n) (l : List String) :
    mostCommonKeys n l = [] ↔ l = [] := by
  unfold mostCommonKeys
  rw [List.take_eq_nil_iff]
  constructor
  · intro h
    rcases h with h | h
    · omega
    · have hlen := (List.perm_insertionSort
        (fun a b => l.count b ≤ l.count a) (keysInOrder l)).length_eq
      rw [h] at hlen
      have hnil : keysInOrder l = [] :=
        List.eq_nil_of_length_eq_zero hlen.symm
      exact (keysInOrder_eq_nil_iff l).mp hnil
  · intro h
    subst h
    right
    simp [keysInOrder, keysInOrderAux]

/-- Membership in `mostCommonKeys n l` for `n` at least the number of
distinct keys: exactly the members of `l`. -/
theorem mostCommonKeys_mem (n : Nat) (l : List String) (x : String)
    (hn : (keysInOrder l).length ≤ n) :
    x ∈ mostCommonKeys n l ↔ x ∈ l := by
  unfold mostCommonKeys
  rw [List.take_of_length_le (by
    rw [(List.perm_insertionSort
      (fun a b => l.count b ≤ l.count a) (keysInOrder l)).length_eq]
    exact hn)]
  rw [(List.perm_insertionSort
    (fun a b => l.count b ≤ l.count a) (keysInOrder l)).mem_iff]
  exact keysInOrder_mem l x

/-! ## Claim C9 -/

/-- C9: `extract_style` on an empty commit list returns the default
`CommitStyle` (pattern `freeform`, no scopes, no emoji, no ticket pattern)
without error; the per-message percentage computations (whose divisors would
be zero) are never reached because the empty case returns first. -/
theorem claim_C9 : extract_style [] = defaultCommitStyle := rfl

/-- `extract_style` on a nonempty list, componentwise. -/
theorem extract_style_cons (c : CommitInfo) (cs : List CommitInfo) :
    extract_style (c :: cs) =
      ⟨detect_pattern ((c :: cs).map CommitInfo.message),
       (detect_scopes ((c :: cs).map CommitInfo.message)).1,
       (detect_scopes ((c :: cs).map CommitInfo.message)).2,
       detect_emoji ((c :: cs).map CommitInfo.message),
       detect_ticket_pattern ((c :: cs).map CommitInfo.message)⟩ := rfl

/-- The `uses_scopes` component of `_detect_scopes` as an integer test. -/
theorem detect_scopes_fst (messages : List String) :
    (detect_scopes messages).1 =
      (!(scopesOf messages).isEmpty &&
        decide (messages.length ≤ 5 * (scopesOf messages).length)) := by
  unfold detect_scopes
  by_cases h : (scopesOf messages).isEmpty
  · simp [h]
  · have hmsg : messages ≠ [] := by
      intro hm
      subst hm
      simp [scopesOf] at h
    have ht : 0 < messages.length := List.length_pos.mpr hmsg
    have hiff := threshold_1_5 (scopesOf messages).length messages.length ht
    simp only [if_neg (by simpa using h), h, Bool.not_false, Bool.true_and]
    exact decide_eq_decide.mpr (by rw [ge_iff_le]; exact hiff)

/-- The `common_scopes` component of `_detect_scopes`. -/
theorem detect_scopes_snd (messages : List String) :
    (detect_scopes messages).2 =
      if (scopesOf messages).isEmpty then []
      else mostCommonKeys 10 (scopesOf messages) := by
  unfold detect_scopes
  by_cases h : (scopesOf messages).isEmpty <;> simp [h]

/-! ## Claim C4 -/

/-- The four-way characterization of `detect_pattern` by the integer forms of
the 30% tests. -/
theorem detect_pattern_char (messages : List String) (hne : messages ≠ []) :
    detect_pattern messages =
      (if 3 * messages.length ≤ 10 * conventionalCount messages then
        StylePattern.conventional
      else if 3 * messages.length ≤ 10 * emojiCount messages then
        StylePattern.emoji
      else if 3 * messages.length ≤ 10 * ticketCount messages then
        StylePattern.ticket
      else StylePattern.freeform) := by
  have ht : 0 < messages.length := List.length_pos.mpr hne
  unfold detect_pattern
  simp only [ge_iff_le, threshold_3_10 _ _ ht]

/-- C4: for a nonempty message list, classification counts the messages
matching the conventional prefix, the leading-emoji regex, and the ticket
regexes, and returns the first category in the fixed order
conventional → emoji → ticket whose count reaches 30% of all messages (even
when a later category counts higher), else `freeform`; and on the scenario
`["feat(auth): add login", "fix(api): handle rate limit",
"docs: update README"]` the style is conventional with `uses_scopes` true and
`common_scopes` containing `"auth"` and `"api"`. -/
theorem claim_C4 (messages : List String) (hne : messages ≠ []) :
    (detect_pattern messages = StylePattern.conventional ↔
      3 * messages.length ≤ 10 * conventionalCount messages)
    ∧ (detect_pattern messages = StylePattern.emoji ↔
      ¬ 3 * messages.length ≤ 10 * conventionalCount messages ∧
        3 * messages.length ≤ 10 * emojiCount messages)
    ∧ (detect_pattern messages = StylePattern.ticket ↔
      ¬ 3 * messages.length ≤ 10 * conventionalCount messages ∧
        ¬ 3 * messages.length ≤ 10 * emojiCount messages ∧
        3 * messages.length ≤ 10 * ticketCount messages)
    ∧ (detect_pattern messages = StylePattern.freeform ↔
      ¬ 3 * messages.length ≤ 10 * conventionalCount messages ∧
        ¬ 3 * messages.length ≤ 10 * emojiCount messages ∧
        ¬ 3 * messages.length ≤ 10 * ticketCount messages)
    ∧ (extract_style c4Scenario).pattern = StylePattern.conventional
    ∧ (extract_style c4Scenario).uses_scopes = true
    ∧ "auth" ∈ (extract_style c4Scenario).common_scopes
    ∧ "api" ∈ (extract_style c4Scenario).common_scopes
    ∧ conventionalCount c4Priority < ticketCount c4Priority
    ∧ detect_pattern c4Priority = StylePattern.conventional := by
  have hchar := detect_pattern_char messages hne
  refine ⟨?_, ?_, ?_, ?_, ?_, ?_, by decide, by decide, by decide, ?_⟩
  · rw [hchar]; split_ifs with h1 h2 h3 <;> simp_all
  · rw [hchar]; split_ifs with h1 h2 h3 <;> simp_all
  · rw [hchar]; split_ifs with h1 h2 h3 <;> simp_all
  · rw [hchar]; split_ifs with h1 h2 h3 <;> simp_all
  · rw [show (extract_style c4Scenario).pattern =
        detect_pattern (c4Scenario.map CommitInfo.message) from rfl,
      detect_pattern_char _ (by decide)]
    decide
  · rw [show (extract_style c4Scenario).uses_scopes =
        (detect_scopes (c4Scenario.map CommitInfo.message)).1 from rfl,
      detect_scopes_fst]
    decide
  · rw [detect_pattern_char c4Priority (by decide)]
    decide

/-- Witness for C4 at the scenario input (discharging the nonemptiness
hypothesis there). -/
theorem claim_C4_witness :
    (c4Scenario.map CommitInfo.message ≠ []) ∧
    (detect_pattern (c4Scenario.map CommitInfo.message) =
        StylePattern.conventional ↔
      3 * (c4Scenario.map CommitInfo.message).length ≤
        10 * conventionalCount (c4Scenario.map CommitInfo.message)) :=
  ⟨by decide, (claim_C4 (c4Scenario.map CommitInfo.message) (by decide)).1⟩

/-! ## Claim C10 -/

theorem scopesOf_eq_nil_iff (messages : List String) :
    scopesOf messages = [] ↔ ∀ m ∈ messages, scopeOf m = none := by
  unfold scopesOf
  rw [List.filterMap_eq_nil_iff]
  constructor
  · intro h m hm
    have := h m hm
    simpa using this
  · intro h m hm
    simp [h m hm]

/-- C10: `common_scopes` is non-empty exactly when some message carries a
parenthesized scope (even when the 20% `uses_scopes` threshold fails), has at
most 10 entries, and lists scopes most-frequent-first; the six-commit demo
with a single scoped message yields `uses_scopes = false` with
`common_scopes = ["auth"]`. -/
theorem claim_C10 (commits : List CommitInfo) :
    ((extract_style commits).common_scopes ≠ [] ↔
      ∃ c ∈ commits, (scopeOf c.message).isSome = true)
    ∧ (extract_style commits).common_scopes.length ≤ 10
    ∧ (extract_style commits).common_scopes.Pairwise
        (fun a b =>
          (scopesOf (commits.map CommitInfo.message)).count b ≤
            (scopesOf (commits.map CommitInfo.message)).count a)
    ∧ (extract_style c10Demo).uses_scopes = false
    ∧ (extract_style c10Demo).common_scopes = ["auth"] := by
  refine ⟨?_, ?_, ?_, ?_, ?_⟩
  · cases commits with
    | nil => simp [extract_style, defaultCommitStyle]
    | cons c cs =>
      simp only [extract_style_cons]
      rw [detect_scopes_snd]
      by_cases h : (scopesOf ((c :: cs).map CommitInfo.message)).isEmpty
      · rw [if_pos h]
        have hall := (scopesOf_eq_nil_iff _).mp (List.isEmpty_iff.mp h)
        simp only [ne_eq, not_true_eq_false, false_iff, not_exists]
        intro x hx
        have hn := hall x.message (List.mem_map_of_mem CommitInfo.message hx.1)
        have := hx.2
        rw [hn] at this
        simp at this
      · rw [if_neg h]
        have h1 : scopesOf ((c :: cs).map CommitInfo.message) ≠ [] := by
          simpa [List.isEmpty_iff] using h
        have h2 :
            mostCommonKeys 10 (scopesOf ((c :: cs).map CommitInfo.message)) ≠
              [] := by
          rw [ne_eq, mostCommonKeys_eq_nil_iff 10 (by norm_num)]
          exact h1
        refine iff_of_true h2 ?_
        rcases List.exists_mem_of_ne_nil _ h1 with ⟨x, hx⟩
        unfold scopesOf at hx
        rcases List.mem_filterMap.mp hx with ⟨m, hm, hmap⟩
        rcases List.mem_map.mp hm with ⟨cc, hcc, rfl⟩
        refine ⟨cc, hcc, ?_⟩
        cases hsc : scopeOf cc.message with
        | none => rw [hsc] at hmap; simp at hmap
        | some v => simp
  · cases commits with
    | nil => simp [extract_style, defaultCommitStyle]
    | cons c cs =>
      simp only [extract_style_cons]
      rw [detect_scopes_snd]
      by_cases h : (scopesOf ((c :: cs).map CommitInfo.message)).isEmpty
      · rw [if_pos h]; simp
      · rw [if_neg h]
        exact mostCommonKeys_length_le 10 _
  · cases commits with
    | nil => simp [extract_style, defaultCommitStyle]
    | cons c cs =>
      simp only [extract_style_cons]
      rw [detect_scopes_snd]
      by_cases h : (scopesOf ((c :: cs).map CommitInfo.message)).isEmpty
      · rw [if_pos h]; simp
      · rw [if_neg h]
        exact mostCommonKeys_sorted 10 _
  · rw [show (extract_style c10Demo).uses_scopes =
        (detect_scopes (c10Demo.map CommitInfo.message)).1 from rfl,
      detect_scopes_fst]
    decide
  · rw [show (extract_style c10Demo).common_scopes =
        (detect_scopes (c10Demo.map CommitInfo.message)).2 from rfl,
      detect_scopes_snd]
    decide

/-! ## Claim C1 -/

/-- C1: deleting a repository removes its own row and every collaborator,
exemplar and antipattern row whose `repo_id` references it; deleting a
collaborator keeps every exemplar/antipattern row (same row count, each row
present with only its `collaborator_id` nulled when it referenced the deleted
collaborator) while removing the collaborator row itself. -/
theorem claim_C1 (s : Store) (rid cid : Nat) :
    (∀ r ∈ (delete_repository s rid).repositories, r.id ≠ rid)
    ∧ (∀ c ∈ (delete_repository s rid).collaborators, c.repo_id ≠ rid)
    ∧ (∀ e ∈ (delete_repository s rid).exemplars, e.repo_id ≠ rid)
    ∧ (∀ a ∈ (delete_repository s rid).antipatterns, a.repo_id ≠ rid)
    ∧ (delete_collaborator s cid).exemplars.length = s.exemplars.length
    ∧ (delete_collaborator s cid).antipatterns.length = s.antipatterns.length
    ∧ (∀ e ∈ s.exemplars,
        (if e.collaborator_id = some cid then
          { e with collaborator_id := none } else e) ∈
          (delete_collaborator s cid).exemplars)
    ∧ (∀ a ∈ s.antipatterns,
        (if a.collaborator_id = some cid then
          { a with collaborator_id := none } else a) ∈
          (delete_collaborator s cid).antipatterns)
    ∧ (∀ c ∈ (delete_collaborator s cid).collaborators, c.id ≠ cid) := by
  refine ⟨?_, ?_, ?_, ?_, ?_, ?_, ?_, ?_, ?_⟩
  · intro r hr
    simp only [delete_repository] at hr
    have h := List.mem_filter.mp hr
    simpa using h.2
  · intro c hc
    simp only [delete_repository] at hc
    have h := List.mem_filter.mp hc
    simpa using h.2
  · intro e he
    simp only [delete_repository, List.mem_map] at he
    rcases he with ⟨e', he', rfl⟩
    have h := List.mem_filter.mp he'
    simpa using h.2
  · intro a ha
    simp only [delete_repository, List.mem_map] at ha
    rcases ha with ⟨a', ha', rfl⟩
    have h := List.mem_filter.mp ha'
    simpa using h.2
  · simp [delete_collaborator]
  · simp [delete_collaborator]
  · intro e he
    simp only [delete_collaborator]
    exact List.mem_map_of_mem _ he
  · intro a ha
    simp only [delete_collaborator]
    exact List.mem_map_of_mem _ ha
  · intro c hc
    simp only [delete_collaborator] at hc
    have h := List.mem_filter.mp hc
    simpa using h.2

/-- Witness for C1 on a concrete store: the exemplar referencing
collaborator 1 survives the collaborator delete with its pointer nulled. -/
theorem claim_C1_witness :
    c1Exemplar ∈ c1Store.exemplars ∧
    (if c1Exemplar.collaborator_id = some 1 then
        { c1Exemplar with collaborator_id := none } else c1Exemplar) ∈
      (delete_collaborator c1Store 1).exemplars :=
  ⟨by decide, (claim_C1 c1Store 1 1).2.2.2.2.2.2.1 c1Exemplar (by decide)⟩

/-! ## Claim C5 -/

/-- C5 (divergence evidence): on a commit whose `files_changed` is the count
form, `DNAExtractor._detect_languages` degrades gracefully to an empty
result (its `isinstance` guard skips the commit), but
`MemorySeeder._detect_primary_areas` and `CollaboratorProfiler._detect_areas`
iterate the integer and raise `TypeError` (`none`) instead of returning empty
results. -/
theorem claim_C5 :
    detect_languages [c5CountCommit] = []
    ∧ detect_primary_areas [c5CountCommit] = none
    ∧ profiler_detect_areas [c5CountCommit] = none := by
  refine ⟨by decide, by decide, by decide⟩

/-! ## Claim C6 -/

theorem roundHalfEven_ge_floor (q : ℚ) : ⌊q⌋ ≤ roundHalfEven q := by
  unfold roundHalfEven
  split_ifs <;> omega

theorem roundHalfEven_le_floor_add_one (q : ℚ) :
    roundHalfEven q ≤ ⌊q⌋ + 1 := by
  unfold roundHalfEven
  split_ifs <;> omega

theorem roundHalfEven_le (q : ℚ) : (roundHalfEven q : ℚ) ≤ q + 1/2 := by
  have hfl := Int.floor_le q
  have hfu := Int.lt_floor_add_one q
  unfold roundHalfEven
  split_ifs with h1 h2 h3 <;> push_cast <;> linarith

theorem roundHalfEven_mono {x y : ℚ} (h : x ≤ y) :
    roundHalfEven x ≤ roundHalfEven y := by
  rcases lt_or_eq_of_le (Int.floor_mono h) with hf | hf
  · calc roundHalfEven x ≤ ⌊x⌋ + 1 := roundHalfEven_le_floor_add_one x
      _ ≤ ⌊y⌋ := by omega
      _ ≤ roundHalfEven y := roundHalfEven_ge_floor y
  · have hr : x - (⌊x⌋ : ℚ) ≤ y - (⌊y⌋ : ℚ) := by
      rw [← hf]; linarith
    unfold roundHalfEven
    rw [← hf]
    split_ifs <;> first | omega | linarith

theorem roundTenth_le (q : ℚ) : roundTenth q ≤ q + 1/20 := by
  unfold roundTenth
  have h := roundHalfEven_le (10 * q)
  linarith

theorem roundTenth_mono {x y : ℚ} (h : x ≤ y) :
    roundTenth x ≤ roundTenth y := by
  unfold roundTenth
  have hm : roundHalfEven (10 * x) ≤ roundHalfEven (10 * y) :=
    roundHalfEven_mono (by linarith)
  have hm2 : ((roundHalfEven (10 * x) : ℤ) : ℚ) ≤
      ((roundHalfEven (10 * y) : ℤ) : ℚ) := by exact_mod_cast hm
  linarith

/-- The 1% filter of `_detect_languages` as an integer inequality. -/
theorem threshold_pct (c t : Nat) (ht : 0 < t) :
    ((1:ℚ) ≤ (c : ℚ) / (t : ℚ) * 100) ↔ t ≤ 100 * c := by
  have ht' : (0:ℚ) < (t:ℚ) := by exact_mod_cast ht
  rw [div_mul_eq_mul_div, le_div_iff ht', one_mul]
  constructor
  · intro h
    have h2 : ((t : Nat) : ℚ) ≤ ((100 * c : Nat) : ℚ) := by push_cast; linarith
    exact_mod_cast h2
  · intro h
    have h2 : ((t : Nat) : ℚ) ≤ ((100 * c : Nat) : ℚ) := by exact_mod_cast h
    push_cast at h2; linarith

theorem filterMap_ite_eq {α β : Type} (P : α → Prop) [DecidablePred P]
    (g : α → β) (l : List α) :
    (l.filterMap fun a => if P a then some (g a) else none) =
      (l.filter fun a => decide (P a)).map g := by
  induction l with
  | nil => rfl
  | cons a t ih => by_cases h : P a <;> simp [h, ih]

/-- `_detect_languages` on input with at least one matched extension, as the
sorted-keys / 1%-filter / round pipeline. -/
theorem detect_languages_eq (commits : List CommitInfo)
    (h : ¬(languageOccurrences commits).isEmpty = true) :
    detect_languages commits =
      ((List.insertionSort
          (fun a b => (languageOccurrences commits).count b ≤
            (languageOccurrences commits).count a)
          (languageKeys commits)).take 10).filterMap
        (fun lang =>
          if ((languageOccurrences commits).count lang : ℚ) /
              ((languageOccurrences commits).length : ℚ) * 100 ≥ 1 then
            some ⟨lang, roundTenth
              (((languageOccurrences commits).count lang : ℚ) /
                ((languageOccurrences commits).length : ℚ) * 100)⟩
          else none) := by
  unfold detect_languages
  rw [if_neg h]

theorem roundTenth_50_3 : roundTenth (50/3 : ℚ) = 167/10 := by
  have hfloor : ⌊(10:ℚ) * (50/3)⌋ = 166 := by
    rw [Int.floor_eq_iff] <;> norm_num
  unfold roundTenth roundHalfEven
  rw [hfloor]
  norm_num

/-- The full language breakdown of the six-language commit: six entries of
16.7 percent each. -/
theorem c6_eval : detect_languages c6Commits =
    [⟨"Python",167/10⟩, ⟨"JavaScript",167/10⟩, ⟨"Go",167/10⟩,
     ⟨"Rust",167/10⟩, ⟨"Ruby",167/10⟩, ⟨"PHP",167/10⟩] := by
  have hsorted : (List.insertionSort
      (fun a b => (languageOccurrences c6Commits).count b ≤
        (languageOccurrences c6Commits).count a)
      (languageKeys c6Commits)).take 10 =
      ["Python","JavaScript","Go","Rust","Ruby","PHP"] := by decide
  have hocc : languageOccurrences c6Commits =
      ["Python","JavaScript","Go","Rust","Ruby","PHP"] := by decide
  rw [detect_languages_eq c6Commits (by decide), hsorted, hocc]
  have h1 : List.count "Python"
      (["Python","JavaScript","Go","Rust","Ruby","PHP"] : List String) = 1 := by
    decide
  have h2 : List.count "JavaScript"
      (["Python","JavaScript","Go","Rust","Ruby","PHP"] : List String) = 1 := by
    decide
  have h3 : List.count "Go"
      (["Python","JavaScript","Go","Rust","Ruby","PHP"] : List String) = 1 := by
    decide
  have h4 : List.count "Rust"
      (["Python","JavaScript","Go","Rust","Ruby","PHP"] : List String) = 1 := by
    decide
  have h5 : List.count "Ruby"
      (["Python","JavaScript","Go","Rust","Ruby","PHP"] : List String) = 1 := by
    decide
  have h6 : List.count "PHP"
      (["Python","JavaScript","Go","Rust","Ruby","PHP"] : List String) = 1 := by
    decide
  have hlen :
      (["Python","JavaScript","Go","Rust","Ruby","PHP"] : List String).length =
        6 := by decide
  norm_num [List.filterMap_cons, h1, h2, h3, h4, h5, h6, hlen,
    roundTenth_50_3]

/-- C6 counterexample: for the six-language commit the stored percentages
are six times 16.7, whose sum 100.2 exceeds 100 — the claim's "percentages
sum to at most 100" is false of the code, because each percentage is rounded
to one decimal before storage. -/
theorem claim_C6_counterexample :
    ((detect_languages c6Commits).map LanguageBreakdown.percentage).sum =
      501/5
    ∧ ¬ ((detect_languages c6Commits).map LanguageBreakdown.percentage).sum
        ≤ 100 := by
  rw [c6_eval]
  norm_num

theorem languageKeys_nodup (commits : List CommitInfo) :
    (languageKeys commits).Nodup := keysInOrder_nodup _

theorem languageKeys_mem (commits : List CommitInfo) (x : String) :
    x ∈ languageKeys commits ↔ x ∈ languageOccurrences commits := by
  unfold languageKeys languageOccurrences
  rw [keysInOrder_mem]
  constructor
  · intro hx
    rcases List.mem_map.mp hx with ⟨e, he, rfl⟩
    exact List.mem_map_of_mem _ ((keysInOrder_mem _ _).mp he)
  · intro hx
    rcases List.mem_map.mp hx with ⟨e, he, rfl⟩
    exact List.mem_map_of_mem _ ((keysInOrder_mem _ _).mpr he)

theorem languageKeys_perm_dedup (commits : List CommitInfo) :
    (languageKeys commits).Perm (languageOccurrences commits).dedup := by
  rw [List.perm_ext_iff_of_nodup (languageKeys_nodup commits)
    (List.nodup_dedup _)]
  intro x
  rw [languageKeys_mem, List.mem_dedup]

theorem sum_count_languageKeys (commits : List CommitInfo) :
    ((languageKeys commits).map
      fun k => (languageOccurrences commits).count k).sum =
      (languageOccurrences commits).length := by
  rw [((languageKeys_perm_dedup commits).map _).sum_eq]
  exact List.sum_map_count_dedup_eq_length _

theorem countP_or_disjoint {α : Type} (p q : α → Bool)
    (h : ∀ x, ¬(p x = true ∧ q x = true)) (l : List α) :
    l.countP (fun x => p x || q x) = l.countP p + l.countP q := by
  induction l with
  | nil => simp
  | cons a t ih =>
    by_cases hp : p a = true <;> by_cases hq : q a = true
    · exact absurd ⟨hp, hq⟩ (h a)
    · simp [List.countP_cons, hp, hq, ih]; omega
    · simp [List.countP_cons, hp, hq, ih]; omega
    · simp [List.countP_cons, hp, hq, ih]

theorem sum_map_count_eq_countP (occ : List String) (L : List String)
    (hn : L.Nodup) :
    (L.map fun k => occ.count k).sum =
      occ.countP (fun x => decide (x ∈ L)) := by
  induction L with
  | nil => simp
  | cons a t ih =>
    rcases List.nodup_cons.mp hn with ⟨ha, ht⟩
    simp only [List.map_cons, List.sum_cons, ih ht]
    have hpred : ∀ x ∈ occ, (decide (x ∈ a :: t) = true ↔
        ((x == a) || decide (x ∈ t)) = true) := by
      intro x _
      by_cases hx : x = a <;> simp [hx]
    rw [List.countP_congr hpred]
    rw [countP_or_disjoint (fun x => x == a) (fun x => decide (x ∈ t))
      (by
        intro x hx
        rcases hx with ⟨h1, h2⟩
        rw [beq_iff_eq] at h1
        subst h1
        exact ha (by simpa using h2)) occ]
    congr 1

theorem sum_count_le_length (occ L : List String) (hn : L.Nodup) :
    (L.map fun k => occ.count k).sum ≤ occ.length := by
  rw [sum_map_count_eq_countP occ L hn]
  exact List.countP_le_length _

theorem languageOccurrences_mem_table (commits : List CommitInfo)
    (x : String) (hx : x ∈ languageOccurrences commits) :
    x ∈ LANGUAGE_EXTENSIONS.map Prod.snd := by
  unfold languageOccurrences at hx
  rcases List.mem_map.mp hx with ⟨e, he, rfl⟩
  unfold matchedExtensions at he
  rcases List.mem_flatMap.mp he with ⟨c, hc, hce⟩
  cases hfc : c.files_changed with
  | count n => rw [hfc] at hce; cases hce
  | paths l =>
    rw [hfc] at hce
    rcases List.mem_filterMap.mp hce with ⟨p, hp, hpe⟩
    by_cases hs : (extLookup (fileSuffix p)).isSome = true
    · rw [if_pos hs] at hpe
      injection hpe with hpe
      subst hpe
      cases hlk : extLookup (fileSuffix p) with
      | none => rw [hlk] at hs; simp at hs
      | some v =>
        simp only [Option.getD_some]
        unfold extLookup at hlk
        rcases Option.map_eq_some'.mp hlk with ⟨pr, hfind, rfl⟩
        exact List.mem_map_of_mem _ (List.mem_of_find?_eq_some hfind)
    · rw [if_neg hs] at hpe
      cases hpe

theorem languageKeys_length_le (commits : List CommitInfo) :
    (languageKeys commits).length ≤ 100 := by
  have hsub : languageKeys commits ⊆ LANGUAGE_EXTENSIONS.map Prod.snd :=
    fun x hx => languageOccurrences_mem_table _ x
      ((languageKeys_mem _ _).mp hx)
  have hle := ((languageKeys_nodup commits).subperm hsub).length_le
  have hlen : (LANGUAGE_EXTENSIONS.map Prod.snd).length = 36 := by decide
  omega

theorem sum_map_add_const {α : Type} (l : List α) (f : α → ℚ) (c : ℚ) :
    (l.map fun x => f x + c).sum = (l.map f).sum + l.length * c := by
  induction l with
  | nil => simp
  | cons a t ih =>
    simp only [List.map_cons, List.sum_cons, List.length_cons, ih]
    push_cast
    ring

theorem sum_map_mul_const (l : List String) (f : String → ℚ) (c : ℚ) :
    (l.map fun x => f x * c).sum = (l.map f).sum * c := by
  induction l with
  | nil => simp
  | cons a t ih =>
    simp only [List.map_cons, List.sum_cons, ih]
    ring

theorem extract_dna_primary (ptResp : Option String)
    (commits : List CommitInfo) :
    (extract_dna ptResp commits).primary_language =
      ((detect_languages commits).head?).map
        (fun l => l.language) := rfl

theorem detect_languages_nil (commits : List CommitInfo)
    (h : (languageOccurrences commits).isEmpty = true) :
    detect_languages commits = [] := by
  unfold detect_languages
  rw [if_pos h]

theorem detect_languages_form (commits : List CommitInfo)
    (h : ¬(languageOccurrences commits).isEmpty = true) :
    detect_languages commits =
      (((List.insertionSort
          (fun a b => (languageOccurrences commits).count b ≤
            (languageOccurrences commits).count a)
          (languageKeys commits)).take 10).filter
        (fun lang =>
          decide (((languageOccurrences commits).count lang : ℚ) /
            ((languageOccurrences commits).length : ℚ) * 100 ≥ 1))).map
        (fun lang => ⟨lang, roundTenth
          (((languageOccurrences commits).count lang : ℚ) /
            ((languageOccurrences commits).length : ℚ) * 100)⟩) := by
  rw [detect_languages_eq commits h, filterMap_ite_eq]

theorem sum_map_const_nat (l : List String) (m : Nat) :
    (l.map fun _ => m).sum = l.length * m := by
  induction l with
  | nil => simp
  | cons a t ih => simp [ih, Nat.succ_mul, Nat.add_comm]

theorem cast_sum_map (L : List String) (f : String → ℕ) :
    (L.map fun x => ((f x : ℕ) : ℚ)).sum = (((L.map f).sum : ℕ) : ℚ) := by
  induction L with
  | nil => simp
  | cons a t ih => simp [ih]

/-- C6 (amended): the breakdown keeps exactly the languages whose exact share
is at least 1%, sorted descending by stored percentage, at most 10 entries;
the stored percentages (each rounded to one decimal) sum to at most 100.5;
`primary_language` is a maximal-share language, absent exactly when no
extension matched. -/
theorem claim_C6_amended (commits : List CommitInfo) (ptResp : Option String) :
    (∀ lb ∈ detect_languages commits,
        (languageOccurrences commits).length ≤
          100 * (languageOccurrences commits).count lb.language)
    ∧ (detect_languages commits).Pairwise
        (fun a b => b.percentage ≤ a.percentage)
    ∧ (detect_languages commits).length ≤ 10
    ∧ ((detect_languages commits).map LanguageBreakdown.percentage).sum ≤
        201/2
    ∧ (languageOccurrences commits = [] →
        (extract_dna ptResp commits).primary_language = none)
    ∧ (languageOccurrences commits ≠ [] →
        ∃ lang, (extract_dna ptResp commits).primary_language = some lang ∧
          ∀ k ∈ languageKeys commits,
            (languageOccurrences commits).count k ≤
              (languageOccurrences commits).count lang) := by
  haveI hTot : IsTotal String
      (fun a b => (languageOccurrences commits).count b ≤
        (languageOccurrences commits).count a) := ⟨fun a b => le_total _ _⟩
  haveI hTrans : IsTrans String
      (fun a b => (languageOccurrences commits).count b ≤
        (languageOccurrences commits).count a) :=
    ⟨fun _ _ _ h1 h2 => le_trans h2 h1⟩
  refine ⟨?_, ?_, ?_, ?_, ?_, ?_⟩
  · -- only languages with share ≥ 1%
    intro lb hlb
    by_cases hocc : (languageOccurrences commits).isEmpty
    · rw [detect_languages_nil commits hocc] at hlb
      cases hlb
    · rw [detect_languages_form commits hocc] at hlb
      rcases List.mem_map.mp hlb with ⟨lang, hlang, rfl⟩
      rcases List.mem_filter.mp hlang with ⟨_, hpct⟩
      have htotal : 0 < (languageOccurrences commits).length :=
        List.length_pos.mpr (by simpa [List.isEmpty_iff] using hocc)
      rw [decide_eq_true_eq, ge_iff_le, threshold_pct _ _ htotal] at hpct
      exact hpct
  · -- sorted descending by stored percentage
    by_cases hocc : (languageOccurrences commits).isEmpty
    · rw [detect_languages_nil commits hocc]
      exact List.Pairwise.nil
    · rw [detect_languages_form commits hocc, List.pairwise_map]
      have htotal : 0 < (languageOccurrences commits).length :=
        List.length_pos.mpr (by simpa [List.isEmpty_iff] using hocc)
      have hsorted :
          (((List.insertionSort
            (fun a b => (languageOccurrences commits).count b ≤
              (languageOccurrences commits).count a)
            (languageKeys commits)).take 10).filter
              (fun lang =>
                decide (((languageOccurrences commits).count lang : ℚ) /
                  ((languageOccurrences commits).length : ℚ) * 100 ≥ 1))).Pairwise
            (fun a b => (languageOccurrences commits).count b ≤
              (languageOccurrences commits).count a) :=
        List.Pairwise.sublist (List.filter_sublist _)
          (List.Pairwise.sublist (List.take_sublist _ _)
            (List.sorted_insertionSort _ _))
      refine hsorted.imp ?_
      intro a b hab
      apply roundTenth_mono
      have hc : ((languageOccurrences commits).count b : ℚ) ≤
          ((languageOccurrences commits).count a : ℚ) := by exact_mod_cast hab
      have ht : (0:ℚ) < ((languageOccurrences commits).length : ℚ) := by
        exact_mod_cast htotal
      have hdiv := (div_le_div_right ht).mpr hc
      exact mul_le_mul_of_nonneg_right hdiv (by norm_num)
  · -- at most 10 entries
    by_cases hocc : (languageOccurrences commits).isEmpty
    · rw [detect_languages_nil commits hocc]
      simp
    · rw [detect_languages_form commits hocc, List.length_map]
      exact le_trans (List.length_filter_le _ _) (List.length_take_le _ _)
  · -- rounded percentages sum to at most 100.5
    by_cases hocc : (languageOccurrences commits).isEmpty
    · rw [detect_languages_nil commits hocc]
      norm_num
    · rw [detect_languages_form commits hocc, List.map_map]
      have htotal : 0 < (languageOccurrences commits).length :=
        List.length_pos.mpr (by simpa [List.isEmpty_iff] using hocc)
      have ht : (0:ℚ) < ((languageOccurrences commits).length : ℚ) := by
        exact_mod_cast htotal
      have hnodupL :
          (((List.insertionSort
            (fun a b => (languageOccurrences commits).count b ≤
              (languageOccurrences commits).count a)
            (languageKeys commits)).take 10).filter
              (fun lang =>
                decide (((languageOccurrences commits).count lang : ℚ) /
                  ((languageOccurrences commits).length : ℚ) * 100 ≥ 1))).Nodup :=
        List.Nodup.sublist (List.filter_sublist _)
          (List.Nodup.sublist (List.take_sublist _ _)
            (((List.perm_insertionSort _ _).nodup_iff).mpr
              (languageKeys_nodup commits)))
      have hlenL :
          (((List.insertionSort
            (fun a b => (languageOccurrences commits).count b ≤
              (languageOccurrences commits).count a)
            (languageKeys commits)).take 10).filter
              (fun lang =>
                decide (((languageOccurrences commits).count lang : ℚ) /
                  ((languageOccurrences commits).length : ℚ) * 100 ≥ 1))).length
            ≤ 10 :=
        le_trans (List.length_filter_le _ _) (List.length_take_le _ _)
      generalize hLdef :
        ((List.insertionSort
          (fun a b => (languageOccurrences commits).count b ≤
            (languageOccurrences commits).count a)
          (languageKeys commits)).take 10).filter
            (fun lang =>
              decide (((languageOccurrences commits).count lang : ℚ) /
                ((languageOccurrences commits).length : ℚ) * 100 ≥ 1)) = L
        at hnodupL hlenL ⊢
      have hstep1 :
          (L.map fun lang =>
            (LanguageBreakdown.mk lang (roundTenth
              (((languageOccurrences commits).count lang : ℚ) /
                ((languageOccurrences commits).length : ℚ) * 100))).percentage).sum
          ≤ (L.map fun lang =>
              ((languageOccurrences commits).count lang : ℚ) /
                ((languageOccurrences commits).length : ℚ) * 100 + 1/20).sum := by
        apply List.sum_le_sum
        intro i _
        exact roundTenth_le _
      have hstep2 := sum_map_add_const L
        (fun lang => ((languageOccurrences commits).count lang : ℚ) /
          ((languageOccurrences commits).length : ℚ) * 100) (1/20)
      have hstep3 :
          (L.map fun lang =>
            ((languageOccurrences commits).count lang : ℚ) /
              ((languageOccurrences commits).length : ℚ) * 100).sum =
          (L.map fun lang =>
            ((languageOccurrences commits).count lang : ℚ)).sum *
            (100 / ((languageOccurrences commits).length : ℚ)) := by
        rw [← sum_map_mul_const]
        apply congrArg List.sum
        apply List.map_congr_left
        intro lang _
        ring
      have hcast := cast_sum_map L
        (fun lang => (languageOccurrences commits).count lang)
      have hle := sum_count_le_length (languageOccurrences commits) L hnodupL
      have hleQ :
          (((L.map fun lang =>
            (languageOccurrences commits).count lang).sum : ℕ) : ℚ) ≤
          ((languageOccurrences commits).length : ℚ) := by exact_mod_cast hle
      have hmul :
          (L.map fun lang =>
            ((languageOccurrences commits).count lang : ℚ)).sum *
            (100 / ((languageOccurrences commits).length : ℚ)) ≤ 100 := by
        rw [hcast]
        have h1 : (0:ℚ) ≤ 100 / ((languageOccurrences commits).length : ℚ) := by
          positivity
        have h2 := mul_le_mul_of_nonneg_right hleQ h1
        calc (((L.map fun lang =>
              (languageOccurrences commits).count lang).sum : ℕ) : ℚ) *
              (100 / ((languageOccurrences commits).length : ℚ))
            ≤ ((languageOccurrences commits).length : ℚ) *
              (100 / ((languageOccurrences commits).length : ℚ)) := h2
          _ = 100 := by field_simp
      have hlenQ : (L.length : ℚ) ≤ 10 := by exact_mod_cast hlenL
      calc (L.map fun lang =>
            (LanguageBreakdown.mk lang (roundTenth
              (((languageOccurrences commits).count lang : ℚ) /
                ((languageOccurrences commits).length : ℚ) * 100))).percentage).sum
          ≤ (L.map fun lang =>
              ((languageOccurrences commits).count lang : ℚ) /
                ((languageOccurrences commits).length : ℚ) * 100 + 1/20).sum :=
            hstep1
        _ = (L.map fun lang =>
              ((languageOccurrences commits).count lang : ℚ) /
                ((languageOccurrences commits).length : ℚ) * 100).sum +
              L.length * (1/20) := hstep2
        _ ≤ 100 + 10 * (1/20) := by
            rw [hstep3]
            have := hmul
            nlinarith [hlenQ]
        _ = 201/2 := by norm_num
  · -- no extension matched: no primary language
    intro hempty
    rw [extract_dna_primary,
      detect_languages_nil commits (List.isEmpty_iff.mpr hempty)]
    rfl
  · -- primary language is a maximal-share language
    intro hne
    have hocc : ¬(languageOccurrences commits).isEmpty = true := by
      simpa [List.isEmpty_iff] using hne
    have htotal : 0 < (languageOccurrences commits).length :=
      List.length_pos.mpr hne
    obtain ⟨l₀, tl, hsA⟩ : ∃ l₀ tl,
        List.insertionSort
          (fun a b => (languageOccurrences commits).count b ≤
            (languageOccurrences commits).count a)
          (languageKeys commits) = l₀ :: tl := by
      cases hs : List.insertionSort
          (fun a b => (languageOccurrences commits).count b ≤
            (languageOccurrences commits).count a)
          (languageKeys commits) with
      | nil =>
        exfalso
        rcases List.exists_mem_of_ne_nil _ hne with ⟨x, hx⟩
        have hxk := (languageKeys_mem commits x).mpr hx
        have := ((List.perm_insertionSort
          (fun a b => (languageOccurrences commits).count b ≤
            (languageOccurrences commits).count a)
          (languageKeys commits)).mem_iff).mpr hxk
        rw [hs] at this
        cases this
      | cons a b => exact ⟨a, b, rfl⟩
    have hmax : ∀ k ∈ languageKeys commits,
        (languageOccurrences commits).count k ≤
          (languageOccurrences commits).count l₀ := by
      intro k hk
      have hkmem : k ∈ l₀ :: tl := by
        rw [← hsA]
        exact ((List.perm_insertionSort _ _).mem_iff).mpr hk
      rcases List.mem_cons.mp hkmem with rfl | hkt
      · exact le_refl _
      · have hp := List.sorted_insertionSort
          (fun a b => (languageOccurrences commits).count b ≤
            (languageOccurrences commits).count a)
          (languageKeys commits)
        rw [hsA] at hp
        exact (List.pairwise_cons.mp hp).1 k hkt
    have hbound : (languageOccurrences commits).length ≤
        (languageKeys commits).length *
          (languageOccurrences commits).count l₀ := by
      rw [← sum_count_languageKeys commits]
      calc ((languageKeys commits).map
            fun k => (languageOccurrences commits).count k).sum
          ≤ ((languageKeys commits).map
              fun _ => (languageOccurrences commits).count l₀).sum :=
            List.sum_le_sum (fun k hk => hmax k hk)
        _ = (languageKeys commits).length *
              (languageOccurrences commits).count l₀ :=
            sum_map_const_nat _ _
    have h100 : (languageOccurrences commits).length ≤
        100 * (languageOccurrences commits).count l₀ :=
      le_trans hbound
        (Nat.mul_le_mul_right _ (languageKeys_length_le commits))
    have hpct1 : ((languageOccurrences commits).count l₀ : ℚ) /
        ((languageOccurrences commits).length : ℚ) * 100 ≥ 1 :=
      (threshold_pct _ _ htotal).mpr h100
    refine ⟨l₀, ?_, hmax⟩
    rw [extract_dna_primary, detect_languages_eq commits hocc, hsA]
    rw [show (l₀ :: tl).take 10 = l₀ :: tl.take 9 from rfl]
    rw [List.filterMap_cons, if_pos hpct1]
    rfl

/-- Witness for the amended C6 at the six-language commit: a maximal-share
primary language exists. -/
theorem claim_C6_amended_witness :
    languageOccurrences c6Commits ≠ [] ∧
    ∃ lang, (extract_dna none c6Commits).primary_language = some lang ∧
      ∀ k ∈ languageKeys c6Commits,
        (languageOccurrences c6Commits).count k ≤
          (languageOccurrences c6Commits).count lang :=
  ⟨by decide, (claim_C6_amended c6Commits none).2.2.2.2.2 (by decide)⟩

/-! ## Claim C7 -/

theorem sortByIndex_of_perm_indexed {f : String → Emb} {ch : List String}
    {l : List (Nat × Emb)} (h : l.Perm (indexedEmbeds f ch)) :
    sortByIndex l = indexedEmbeds f ch := by
  haveI : IsTotal (Nat × Emb) (fun x y => x.1 ≤ y.1) :=
    ⟨fun a b => le_total _ _⟩
  haveI : IsTrans (Nat × Emb) (fun x y => x.1 ≤ y.1) :=
    ⟨fun _ _ _ h1 h2 => le_trans h1 h2⟩
  haveI : IsAntisymm (Nat × Emb) (fun x y => x.1 < y.1) :=
    ⟨fun a b h1 h2 => absurd h2 (Nat.lt_asymm h1)⟩
  have hperm : (sortByIndex l).Perm (indexedEmbeds f ch) :=
    (List.perm_insertionSort _ l).trans h
  have hfst : (indexedEmbeds f ch).map Prod.fst =
      List.range (ch.map f).length := List.enum_map_fst _
  have hsorted2 : (indexedEmbeds f ch).Pairwise (fun x y => x.1 < y.1) := by
    rw [← List.pairwise_map (f := Prod.fst), hfst]
    exact List.pairwise_lt_range _
  have hsorted1le : (sortByIndex l).Pairwise (fun x y => x.1 ≤ y.1) :=
    List.sorted_insertionSort _ _
  have hnodup : ((sortByIndex l).map Prod.fst).Nodup := by
    have hp2 : ((sortByIndex l).map Prod.fst).Perm
        ((indexedEmbeds f ch).map Prod.fst) := hperm.map _
    rw [hp2.nodup_iff, hfst]
    exact List.nodup_range _
  have hne : (sortByIndex l).Pairwise (fun x y => x.1 ≠ y.1) := by
    rw [← List.pairwise_map (f := Prod.fst)] at *
    exact hnodup
  have hsorted1 : (sortByIndex l).Pairwise (fun x y => x.1 < y.1) :=
    (hsorted1le.and hne).imp (fun hx => lt_of_le_of_ne hx.1 hx.2)
  exact List.eq_of_perm_of_sorted hperm hsorted1 hsorted2

theorem generateChunks_eq (oracle : List String → Option (List (Nat × Emb)))
    (f : String → Emb) :
    ∀ chs : List (List String),
      (∀ ch ∈ chs, ∃ resp, oracle ch = some resp ∧
        resp.Perm (indexedEmbeds f ch)) →
      generateChunks oracle chs = some (chs.flatten.map f) := by
  intro chs
  induction chs with
  | nil => intro _; simp [generateChunks]
  | cons ch rest ih =>
    intro h
    rcases h ch (List.mem_cons_self _ _) with ⟨resp, hor, hperm⟩
    have hrest := ih (fun c hc => h c (List.mem_cons_of_mem _ hc))
    simp only [generateChunks, hor, hrest, Option.bind_eq_bind,
      Option.some_bind]
    rw [sortByIndex_of_perm_indexed hperm]
    simp [indexedEmbeds, List.enum_map_snd]

theorem chunksOf_nil (n : Nat) : chunksOf n ([] : List String) = [] := by
  rw [chunksOf]

theorem chunksOf_flatten (l : List String) :
    (chunksOf 100 l).flatten = l := by
  induction l using chunksOf.induct 100 with
  | case1 => rw [chunksOf_nil]; rfl
  | case2 a rest ih =>
    rw [chunksOf]
    simp only [List.flatten_cons, ih]
    rw [List.cons_append, List.take_append_drop]

theorem chunksOf_bounds (l : List String) :
    ∀ ch ∈ chunksOf 100 l, ch.length ≤ 100 ∧ ch ≠ [] := by
  induction l using chunksOf.induct 100 with
  | case1 => intro ch hch; rw [chunksOf_nil] at hch; cases hch
  | case2 a rest ih =>
    intro ch hch
    rw [chunksOf] at hch
    rcases List.mem_cons.mp hch with rfl | hch
    · refine ⟨?_, by simp⟩
      simp only [List.length_cons]
      have := List.length_take_le (100 - 1) rest
      omega
    · exact ih ch hch

theorem chunksOf_150 (l : List String) (hlen : l.length = 150) :
    (chunksOf 100 l).map List.length = [100, 50] := by
  cases l with
  | nil => simp at hlen
  | cons a rest =>
    have hrest : rest.length = 149 := by
      simpa using hlen
    obtain ⟨b, r2, hd⟩ : ∃ b r2, rest.drop 99 = b :: r2 := by
      have : (rest.drop 99).length = 50 := by
        rw [List.length_drop, hrest]
      cases hx : rest.drop 99 with
      | nil => rw [hx] at this; simp at this
      | cons b r2 => exact ⟨b, r2, rfl⟩
    have hr2 : r2.length = 49 := by
      have : (rest.drop 99).length = 50 := by
        rw [List.length_drop, hrest]
      rw [hd] at this
      simpa using this
    rw [chunksOf]
    simp only [show (100 - 1 : Nat) = 99 from rfl, hd]
    rw [chunksOf]
    simp only [show (100 - 1 : Nat) = 99 from rfl]
    have htake : r2.take 99 = r2 := List.take_of_length_le (by omega)
    have hdrop : r2.drop 99 = [] := List.drop_eq_nil_of_le (by omega)
    rw [htake, hdrop]
    rw [chunksOf_nil]
    have h1 : (a :: rest.take 99).length = 100 := by
      simp only [List.length_cons, List.length_take, hrest]
      omega
    have h2 : (b :: r2).length = 50 := by
      simp only [List.length_cons, hr2]
    simp [h1, h2]

/-- C7: `generate_batch` splits the input into consecutive chunks of at most
100 texts with one oracle call per chunk (150 texts give exactly two calls of
sizes 100 and 50), re-orders each chunk's reply by the oracle-returned index,
and returns one embedding per input text in input order regardless of the
within-chunk reply order. -/
theorem claim_C7 (texts : List String) (f : String → Emb)
    (oracle : List String → Option (List (Nat × Emb)))
    (horacle : ∀ ch ∈ chunksOf 100 texts,
      ∃ resp, oracle ch = some resp ∧ resp.Perm (indexedEmbeds f ch)) :
    generate_batch oracle texts = some (texts.map f)
    ∧ (chunksOf 100 texts).flatten = texts
    ∧ (∀ ch ∈ chunksOf 100 texts, ch.length ≤ 100 ∧ ch ≠ [])
    ∧ (texts.length = 150 →
        (chunksOf 100 texts).map List.length = [100, 50]) := by
  refine ⟨?_, chunksOf_flatten texts, chunksOf_bounds texts,
    chunksOf_150 texts⟩
  unfold generate_batch
  by_cases h : texts.isEmpty
  · rw [if_pos h]
    rw [List.isEmpty_iff.mp h]
    rfl
  · rw [if_neg h]
    rw [generateChunks_eq oracle f _ horacle, chunksOf_flatten]

/-- Witness for C7: 150 identical texts against an oracle that answers each
chunk in reversed index order still yield the embeddings in input order,
with exactly two chunks of sizes 100 and 50. -/
theorem claim_C7_witness :
    generate_batch c7Oracle c7Texts = some (c7Texts.map c7F) ∧
    (chunksOf 100 c7Texts).map List.length = [100, 50] :=
  have h := claim_C7 c7Texts c7F c7Oracle
    (fun ch _ =>
      ⟨(indexedEmbeds c7F ch).reverse, rfl, List.reverse_perm _⟩)
  ⟨h.1, h.2.2.2 (by simp [c7Texts])⟩

/-! ## Claim C8 -/

theorem map_fst_similarity (l : List ExemplarRow) (query : Emb) :
    (l.filterMap fun e =>
      match e.embedding with
      | some v => some (e, cosine_similarity query v)
      | none => none).map Prod.fst =
      l.filter fun e => e.embedding.isSome := by
  induction l with
  | nil => rfl
  | cons e t ih =>
    cases he : e.embedding with
    | none => simp [List.filterMap_cons, he, ih, List.filter_cons]
    | some v => simp [List.filterMap_cons, he, ih, List.filter_cons]

/-- C8: the similarity scan considers exactly the repository's exemplars
that have a stored embedding; the returned pairs are sorted descending by
similarity and number at most `limit`; and cosine similarity is 0.0 whenever
either vector has zero norm (zero sum of squares), so no division by zero
occurs. -/
theorem claim_C8 (s : Store) (rid lim : Nat) (query : Emb) (a b : List ℚ) :
    ((similarity_results s rid query).map Prod.fst =
      (list_exemplars s rid).filter (fun e => e.embedding.isSome))
    ∧ (find_similar_exemplars s rid query lim).Pairwise
        (fun x y => y.2 ≤ x.2)
    ∧ (find_similar_exemplars s rid query lim).length ≤ lim
    ∧ (sumSq a = 0 ∨ sumSq b = 0 → cosine_similarity a b = 0) := by
  refine ⟨?_, ?_, ?_, ?_⟩
  · unfold similarity_results
    exact map_fst_similarity _ query
  · unfold find_similar_exemplars
    by_cases h : (list_exemplars s rid).isEmpty
    · rw [if_pos h]
      exact List.Pairwise.nil
    · rw [if_neg h]
      haveI : IsTotal (ExemplarRow × ℝ) (fun x y => y.2 ≤ x.2) :=
        ⟨fun x y => le_total _ _⟩
      haveI : IsTrans (ExemplarRow × ℝ) (fun x y => y.2 ≤ x.2) :=
        ⟨fun _ _ _ h1 h2 => le_trans h2 h1⟩
      exact List.Pairwise.sublist (List.take_sublist _ _)
        (List.sorted_insertionSort _ _)
  · unfold find_similar_exemplars
    by_cases h : (list_exemplars s rid).isEmpty
    · rw [if_pos h]
      simp
    · rw [if_neg h]
      exact List.length_take_le _ _
  · intro hz
    unfold cosine_similarity
    have hsq : Real.sqrt ((sumSq a : ℚ) : ℝ) = 0 ∨
        Real.sqrt ((sumSq b : ℚ) : ℝ) = 0 := by
      rcases hz with hz | hz
      · left; rw [hz]; simp
      · right; rw [hz]; simp
    rw [if_pos hsq]

/-- Witness for C8: the zero vector gives similarity 0 against any vector. -/
theorem claim_C8_witness : cosine_similarity [0, 0] [1] = 0 :=
  (claim_C8 ⟨[], [], [], [], 1, 1, 1, 1⟩ 0 0 [] [0, 0] [1]).2.2.2
    (Or.inl (by norm_num [sumSq]))

/-! ## Claim C3 -/

theorem analyze_commit_commit {oracle : CommitInfo → Option ScoreResp}
    {c : CommitInfo} {r : AnalysisResult}
    (h : analyze_commit oracle c = some r) : r.commit = c := by
  unfold analyze_commit at h
  cases ho : oracle c with
  | none => rw [ho] at h; cases h
  | some resp =>
    rw [ho] at h
    injection h with h
    rw [← h]

theorem analyze_commits_filterMap
    (oracle : CommitInfo → Option ScoreResp) (commits : List CommitInfo) :
    analyze_commits oracle commits =
      commits.filterMap (analyze_commit oracle) := by
  induction commits with
  | nil => rfl
  | cons c rest ih =>
    cases h : analyze_commit oracle c <;>
      simp [analyze_commits, h, ih, List.filterMap_cons]

theorem analyze_commits_map_commit
    (oracle : CommitInfo → Option ScoreResp) (commits : List CommitInfo) :
    (analyze_commits oracle commits).map AnalysisResult.commit =
      commits.filter (fun c => (oracle c).isSome) := by
  induction commits with
  | nil => rfl
  | cons c rest ih =>
    cases h : oracle c with
    | none =>
      simp [analyze_commits, analyze_commit, h, ih, List.filter_cons]
    | some r =>
      simp [analyze_commits, analyze_commit, h, ih, List.filter_cons]

theorem mem_analyze_commits {oracle : CommitInfo → Option ScoreResp}
    {commits : List CommitInfo} {r : AnalysisResult}
    (h : r ∈ analyze_commits oracle commits) :
    r.commit ∈ commits ∧ analyze_commit oracle r.commit = some r := by
  induction commits with
  | nil => cases h
  | cons c rest ih =>
    by_cases hc : (analyze_commit oracle c).isSome
    · rcases Option.isSome_iff_exists.mp hc with ⟨r', hr'⟩
      rw [show analyze_commits oracle (c :: rest) =
          r' :: analyze_commits oracle rest from by
        simp [analyze_commits, hr']] at h
      rcases List.mem_cons.mp h with rfl | hmem
      · have hcom := analyze_commit_commit hr'
        rw [hcom]
        exact ⟨List.mem_cons_self _ _, hr'⟩
      · have := ih hmem
        exact ⟨List.mem_cons_of_mem _ this.1, this.2⟩
    · have hnone : analyze_commit oracle c = none := by
        cases hx : analyze_commit oracle c with
        | none => rfl
        | some _ => rw [hx] at hc; simp at hc
      rw [show analyze_commits oracle (c :: rest) =
          analyze_commits oracle rest from by
        simp [analyze_commits, hnone]] at h
      have := ih h
      exact ⟨List.mem_cons_of_mem _ this.1, this.2⟩

theorem filter_hash_nil {oracle : CommitInfo → Option ScoreResp}
    {rest : List CommitInfo} {h0 : String}
    (hno : ∀ c ∈ rest, c.hash ≠ h0) :
    (analyze_commits oracle rest).filter
      (fun r => r.commit.hash = h0) = [] := by
  rw [List.filter_eq_nil_iff]
  intro r hr
  have hmem := (mem_analyze_commits hr).1
  simpa using hno r.commit hmem

theorem scoreMapLookup_eq (oracle : CommitInfo → Option ScoreResp)
    (commits : List CommitInfo)
    (hnodup : (commits.map CommitInfo.hash).Nodup) :
    ∀ c ∈ commits,
      scoreMapLookup (analyze_commits oracle commits) c.hash =
        (oracle c).map ScoreResp.score := by
  induction commits with
  | nil => intro c hc; cases hc
  | cons a rest ih =>
    have hn : (∀ x ∈ rest, ¬x.hash = a.hash) ∧
        (rest.map CommitInfo.hash).Nodup := by simpa using hnodup
    intro c hc
    rcases List.mem_cons.mp hc with rfl | hcr
    · -- c is the head commit
      have hrest : ∀ x ∈ rest, x.hash ≠ c.hash := fun x hx => hn.1 x hx
      unfold scoreMapLookup
      cases ho : oracle c with
      | none =>
        rw [show analyze_commits oracle (c :: rest) =
            analyze_commits oracle rest from by
          simp [analyze_commits, analyze_commit, ho]]
        rw [filter_hash_nil hrest]
        simp [ho]
      | some resp =>
        rw [show analyze_commits oracle (c :: rest) =
            ⟨c, resp.score, resp.feedback, resp.suggestion⟩ ::
              analyze_commits oracle rest from by
          simp [analyze_commits, analyze_commit, ho]]
        rw [List.filter_cons]
        rw [if_pos (by simp)]
        rw [filter_hash_nil hrest]
        simp [ho]
    · -- c is in the tail
      have hne : a.hash ≠ c.hash := fun heq => hn.1 c hcr heq.symm
      have hstep : scoreMapLookup (analyze_commits oracle (a :: rest)) c.hash
          = scoreMapLookup (analyze_commits oracle rest) c.hash := by
        unfold scoreMapLookup
        cases ho : oracle a with
        | none =>
          rw [show analyze_commits oracle (a :: rest) =
              analyze_commits oracle rest from by
            simp [analyze_commits, analyze_commit, ho]]
        | some resp =>
          rw [show analyze_commits oracle (a :: rest) =
              ⟨a, resp.score, resp.feedback, resp.suggestion⟩ ::
                analyze_commits oracle rest from by
            simp [analyze_commits, analyze_commit, ho]]
          rw [List.filter_cons, if_neg (by simpa using hne)]
      rw [hstep]
      exact ih hn.2 c hcr

/-- C3 counterexample: two commits share a hash; the first (author A) fails
scoring, the second (author B) scores 5.  Author A's per-author score list
then contains 5 — obtained through the failed commit's hash lookup — even
though every commit authored by A failed scoring, so the failed commit does
take part in downstream aggregation. -/
theorem claim_C3_counterexample :
    c3DupOracle c3FailCommit = none
    ∧ c3FailCommit.author = "A"
    ∧ (∀ c ∈ [c3FailCommit, c3OkCommit],
        c.author = "A" → c3DupOracle c = none)
    ∧ scores_by_author [c3FailCommit, c3OkCommit]
        (analyze_commits c3DupOracle [c3FailCommit, c3OkCommit]) "A" = [5]
    ∧ scores_by_author [c3OkCommit]
        (analyze_commits c3DupOracle [c3OkCommit]) "A" = [] := by
  refine ⟨by decide, by decide, by decide, by decide, by decide⟩

/-- C3 (amended): for commit lists with pairwise-distinct hashes (the data
model's identity key), a commit whose scoring call raises is silently
skipped: no exception propagates (`analyze_commits` is total), the results
are exactly the successfully scored commits in input order, the failed
commit feeds neither the score map, nor the exemplar filter, and each
per-author score list holds exactly the successful scores of that author's
commits in input order. -/
theorem claim_C3_amended (oracle : CommitInfo → Option ScoreResp)
    (commits : List CommitInfo)
    (hnodup : (commits.map CommitInfo.hash).Nodup) :
    (analyze_commits oracle commits =
      commits.filterMap (analyze_commit oracle))
    ∧ ((analyze_commits oracle commits).map AnalysisResult.commit =
        commits.filter (fun c => (oracle c).isSome))
    ∧ (∀ c ∈ commits, oracle c = none →
        (∀ r ∈ analyze_commits oracle commits, r.commit ≠ c)
        ∧ scoreMapLookup (analyze_commits oracle commits) c.hash = none
        ∧ ∀ thr : Nat, ∀ r ∈ (analyze_commits oracle commits).filter
            (fun r => thr ≤ r.score), r.commit ≠ c)
    ∧ (∀ author,
        scores_by_author commits (analyze_commits oracle commits) author =
          (commits.filter fun c => c.author = author).filterMap
            (fun c => (oracle c).map ScoreResp.score)) := by
  refine ⟨analyze_commits_filterMap oracle commits,
    analyze_commits_map_commit oracle commits, ?_, ?_⟩
  · intro c hc hnone
    have hnotin : ∀ r ∈ analyze_commits oracle commits, r.commit ≠ c := by
      intro r hr heq
      have h2 := (mem_analyze_commits hr).2
      rw [heq] at h2
      unfold analyze_commit at h2
      rw [hnone] at h2
      cases h2
    refine ⟨hnotin, ?_, ?_⟩
    · rw [scoreMapLookup_eq oracle commits hnodup c hc, hnone]
      rfl
    · intro thr r hr
      exact hnotin r (List.mem_of_mem_filter hr)
  · intro author
    unfold scores_by_author
    apply List.filterMap_congr
    intro c hc
    exact scoreMapLookup_eq oracle commits hnodup c
      (List.mem_of_mem_filter hc)

/-- Witness for the amended C3: three distinct-hash commits with the middle
one failing; author A's score list holds exactly the score of A's
successfully scored commit. -/
theorem claim_C3_witness :
    (c3WitCommits.map CommitInfo.hash).Nodup ∧
    scores_by_author c3WitCommits
        (analyze_commits c3WitOracle c3WitCommits) "A" =
      (c3WitCommits.filter fun c => c.author = "A").filterMap
        (fun c => (c3WitOracle c).map ScoreResp.score) :=
  ⟨by decide,
    (claim_C3_amended c3WitOracle c3WitCommits (by decide)).2.2.2 "A"⟩

/-! ## Claim C2 -/

theorem delete_repository_repositories (s : Store) (rid : Nat) :
    (delete_repository s rid).repositories =
      s.repositories.filter fun x => x.id ≠ rid := rfl

theorem delete_repository_collaborators (s : Store) (rid : Nat) :
    (delete_repository s rid).collaborators =
      s.collaborators.filter fun c => c.repo_id ≠ rid := rfl

theorem delete_repository_nextRepoId (s : Store) (rid : Nat) :
    (delete_repository s rid).nextRepoId = s.nextRepoId := rfl

theorem create_repository_some {s : Store} {d : RepositoryCreate}
    {row : RepositoryRow} {s' : Store}
    (h : create_repository s d = some (row, s')) :
    row.id = s.nextRepoId ∧ row.name = d.name ∧
    s'.repositories = s.repositories ++ [row] ∧
    s'.collaborators = s.collaborators := by
  unfold create_repository at h
  split_ifs at h
  injection h with h
  simp only [Prod.mk.injEq] at h
  obtain ⟨h1, h2⟩ := h
  subst h1
  subst h2
  exact ⟨rfl, rfl, rfl, rfl⟩

theorem create_exemplar_frame {s : Store} {d : ExemplarCreate}
    {x : ExemplarRow × Store} (h : create_exemplar s d = some x) :
    x.2.repositories = s.repositories ∧
    x.2.collaborators = s.collaborators := by
  unfold create_exemplar at h
  split_ifs at h
  injection h with h
  subst h
  exact ⟨rfl, rfl⟩

theorem create_collaborator_some {s : Store} {d : CollaboratorCreate}
    {x : CollaboratorRow × Store} (h : create_collaborator s d = some x) :
    x.1.repo_id = d.repo_id ∧
    x.2.repositories = s.repositories ∧
    x.2.collaborators = s.collaborators ++ [x.1] := by
  unfold create_collaborator at h
  split_ifs at h
  injection h with h
  subst h
  exact ⟨rfl, rfl, rfl⟩

theorem create_antipattern_frame {s : Store} {d : AntipatternCreate}
    {x : AntipatternRow × Store} (h : create_antipattern s d = some x) :
    x.2.repositories = s.repositories ∧
    x.2.collaborators = s.collaborators := by
  unfold create_antipattern at h
  split_ifs at h
  injection h with h
  subst h
  exact ⟨rfl, rfl⟩

theorem insert_exemplars_frame (rid : Nat) :
    ∀ (l : List (AnalysisResult × Emb)) (s s' : Store),
      insert_exemplars rid l s = some s' →
      s'.repositories = s.repositories ∧
      s'.collaborators = s.collaborators := by
  intro l
  induction l with
  | nil =>
    intro s s' h
    injection h with h
    rw [← h]
    exact ⟨rfl, rfl⟩
  | cons p rest ih =>
    intro s s' h
    unfold insert_exemplars at h
    simp only [Option.bind_eq_bind, Option.bind_eq_some] at h
    rcases h with ⟨x, hx, hrest⟩
    have h1 := create_exemplar_frame hx
    have h2 := ih x.2 s' hrest
    exact ⟨h2.1.trans h1.1, h2.2.trans h1.2⟩

theorem insert_antipatterns_frame (rid cid : Nat) :
    ∀ (l : List (AntipatternType × String × Nat)) (s s' : Store),
      insert_antipatterns rid cid l s = some s' →
      s'.repositories = s.repositories ∧
      s'.collaborators = s.collaborators := by
  intro l
  induction l with
  | nil =>
    intro s s' h
    injection h with h
    rw [← h]
    exact ⟨rfl, rfl⟩
  | cons p rest ih =>
    intro s s' h
    unfold insert_antipatterns at h
    simp only [Option.bind_eq_bind, Option.bind_eq_some] at h
    rcases h with ⟨x, hx, hrest⟩
    have h1 := create_antipattern_frame hx
    have h2 := ih x.2 s' hrest
    exact ⟨h2.1.trans h1.1, h2.2.trans h1.2⟩

theorem extract_exemplars_frame
    {embedOracle : List String → Option (List (Nat × Emb))}
    {results : List AnalysisResult} {rid threshold : Nat} {s : Store}
    {out : Nat × Store}
    (h : extract_exemplars embedOracle results rid threshold s = some out) :
    out.2.repositories = s.repositories ∧
    out.2.collaborators = s.collaborators := by
  unfold extract_exemplars at h
  dsimp only [] at h
  split_ifs at h
  · injection h with h
    rw [← h]
    exact ⟨rfl, rfl⟩
  · simp only [Option.bind_eq_bind, Option.bind_eq_some] at h
    rcases h with ⟨embs, _, s', hins, hout⟩
    have h1 := insert_exemplars_frame rid _ s s' hins
    injection hout with hout
    rw [← hout]
    exact h1

theorem profileLoop_frame (rid : Nat) (commits : List CommitInfo)
    (results : List AnalysisResult)
    (apsOf : String → List (AntipatternType × String × Nat)) :
    ∀ (authors : List String) (s : Store) (hr : Bool)
      (out : Store × Bool),
      profileLoop rid commits results apsOf authors s hr = some out →
      out.1.repositories = s.repositories ∧
      ∀ c ∈ out.1.collaborators,
        c ∈ s.collaborators ∨ c.repo_id = rid := by
  intro authors
  induction authors with
  | nil =>
    intro s hr out h
    injection h with h
    rw [← h]
    exact ⟨rfl, fun c hc => Or.inl hc⟩
  | cons a rest ih =>
    intro s hr out h
    unfold profileLoop at h
    simp only [Option.bind_eq_bind, Option.bind_eq_some] at h
    rcases h with ⟨areas, _, collab, hcc, s2, hins, hrec⟩
    have hccf := create_collaborator_some hcc
    have hinsf := insert_antipatterns_frame rid collab.1.id _ collab.2 s2 hins
    have hrecf := ih s2 _ out hrec
    constructor
    · rw [hrecf.1, hinsf.1, hccf.2.1]
    · intro c hc
      rcases hrecf.2 c hc with hmem | hrid
      · rw [hinsf.2, hccf.2.2] at hmem
        rcases List.mem_append.mp hmem with hmem | hmem
        · exact Or.inl hmem
        · right
          rcases List.mem_singleton.mp hmem with rfl
          exact hccf.1
      · exact Or.inr hrid

theorem profile_contributors_frame {commits : List CommitInfo}
    {results : List AnalysisResult} {rid : Nat} {includeRoasts : Bool}
    {s : Store} {out : (Nat × Bool) × Store}
    (h : profile_contributors commits results rid includeRoasts s =
      some out) :
    out.2.repositories = s.repositories ∧
    ∀ c ∈ out.2.collaborators,
      c ∈ s.collaborators ∨ c.repo_id = rid := by
  unfold profile_contributors at h
  simp only [Option.bind_eq_bind, Option.bind_eq_some] at h
  rcases h with ⟨lp, hlp, hout⟩
  have hf := profileLoop_frame rid commits results _ _ s false lp hlp
  injection hout with hout
  rw [← hout]
  exact hf

theorem filter_name_eq_singleton {l : List RepositoryRow} {r : RepositoryRow}
    {n : String}
    (hlen : (l.filter fun x => x.name = n).length ≤ 1)
    (hmem : r ∈ l) (hname : r.name = n) :
    l.filter (fun x => x.name = n) = [r] := by
  have hrmem : r ∈ l.filter fun x => x.name = n := by
    rw [List.mem_filter]
    exact ⟨hmem, by simpa using hname⟩
  match hf : l.filter fun x => x.name = n with
  | [] => rw [hf] at hrmem; exact absurd hrmem (List.not_mem_nil r)
  | [a] =>
    rw [hf] at hrmem
    rcases List.mem_singleton.mp hrmem with rfl
    exact hf
  | a :: b :: rest =>
    rw [hf] at hlen
    simp at hlen

/-- **C2** (counterexample to the universal claim): the schema declares no
`UNIQUE` constraint on repository `name`, so a store can hold two rows named
`"x"`; `seed` deletes only the row `get_repository_by_name` returns (the
first), creates a new one, and finishes with *two* rows named `"x"`. -/
theorem claim_C2_counterexample :
    ((get_repository_by_name c2DupStore "x").map fun r => r.id) = some 1 ∧
    ((seed none noScoreOracle emptyEmbedOracle c2DupStore [] "x" none 8 true
        true).map fun out =>
      (out.2.repositories.filter fun x => x.name = "x").map fun x => x.id) =
      some [2, 3] := by
  exact ⟨rfl, rfl⟩

/-- **C2** (amended): for a store satisfying the autoincrement invariant and
holding at most one repository row named `repoName`, if such a row `r` exists
and `seed` completes, it first deletes `r` (and its collaborators, by
cascade) and then creates the new record: exactly one repository row named
`repoName` remains, it is not `r`, and no surviving collaborator row
references `r.id`. -/
theorem claim_C2_amended {ptResp : Option String}
    {scoreOracle : CommitInfo → Option ScoreResp}
    {embedOracle : List String → Option (List (Nat × Emb))}
    {s : Store} {commits : List CommitInfo} {repoName : String}
    {repoUrl : Option String} {threshold : Nat}
    {includeRoasts includeMarket : Bool} {r : RepositoryRow}
    {out : SeedingResult × Store}
    (hfresh : Store.ReposFresh s)
    (huniq : (s.repositories.filter fun x => x.name = repoName).length ≤ 1)
    (hget : get_repository_by_name s repoName = some r)
    (hseed : seed ptResp scoreOracle embedOracle s commits repoName repoUrl
      threshold includeRoasts includeMarket = some out) :
    ((out.2.repositories.filter fun x => x.name = repoName).map
        fun x => x.id) = [s.nextRepoId] ∧
    r.id ≠ s.nextRepoId ∧
    ∀ c ∈ out.2.collaborators, c.repo_id ≠ r.id := by
  have hrmem : r ∈ s.repositories := List.mem_of_find?_eq_some hget
  have hrname : r.name = repoName := by
    have := List.find?_some hget
    simpa using this
  have hrid : r.id < s.nextRepoId := hfresh r hrmem
  unfold seed at hseed
  rw [hget] at hseed
  simp only [Option.bind_eq_bind, Option.bind_eq_some] at hseed
  rcases hseed with ⟨repo, hrepo, ex, hex, prof, hprof, hout⟩
  have hcr := create_repository_some hrepo
  have hexf := extract_exemplars_frame hex
  have hpff := profile_contributors_frame hprof
  injection hout with hout
  have hout2 : out.2 = prof.2 := by rw [← hout]
  have hrepos : out.2.repositories =
      (s.repositories.filter fun x => x.id ≠ r.id) ++ [repo.1] := by
    rw [hout2, hpff.1, hexf.1, hcr.2.2.1, delete_repository_repositories]
  have hnewid : repo.1.id = s.nextRepoId := by
    rw [hcr.1, delete_repository_nextRepoId]
  have hsingle : s.repositories.filter (fun x => x.name = repoName) = [r] :=
    filter_name_eq_singleton huniq hrmem hrname
  have hold : ((s.repositories.filter fun x => x.id ≠ r.id).filter
      fun x => x.name = repoName) = [] := by
    rw [List.eq_nil_iff_forall_not_mem]
    intro x hx
    rw [List.mem_filter] at hx
    obtain ⟨hx1, hx2⟩ := hx
    rw [List.mem_filter] at hx1
    obtain ⟨hx3, hx4⟩ := hx1
    have hxf : x ∈ s.repositories.filter fun x => x.name = repoName := by
      rw [List.mem_filter]
      exact ⟨hx3, hx2⟩
    rw [hsingle] at hxf
    rcases List.mem_singleton.mp hxf with rfl
    simp at hx4
  refine ⟨?_, by omega, ?_⟩
  · rw [hrepos, List.filter_append, hold]
    have : List.filter (fun x => decide (x.name = repoName)) [repo.1] =
        [repo.1] := by
      rw [List.filter_singleton]
      simp [hcr.2.1]
    simp only [List.filter] at this ⊢
    rw [this]
    simp [hnewid]
  · intro c hc
    rw [hout2] at hc
    rcases hpff.2 c hc with hmem | hcid
    · rw [hexf.2, hcr.2.2.2, delete_repository_collaborators] at hmem
      rw [List.mem_filter] at hmem
      simpa using hmem.2
    · rw [hcid, hnewid]
      omega

/-- Witness for `claim_C2_amended` at a concrete store with one repository
`"x"` and one collaborator of it, seeding `"x"` again with no commits. -/
theorem claim_C2_witness :
    ∃ out, seed none noScoreOracle emptyEmbedOracle c2WitStore [] "x" none 8
      true true = some out ∧
    (((out.2.repositories.filter fun x => x.name = "x").map
        fun x => x.id) = [c2WitStore.nextRepoId] ∧
      (plainRepoRow 1 "x").id ≠ c2WitStore.nextRepoId ∧
      ∀ c ∈ out.2.collaborators, c.repo_id ≠ (plainRepoRow 1 "x").id) := by
  have h : ∃ out, seed none noScoreOracle emptyEmbedOracle c2WitStore [] "x"
      none 8 true true = some out := ⟨_, rfl⟩
  obtain ⟨out, hout⟩ := h
  exact ⟨out, hout,
    claim_C2_amended (by unfold Store.ReposFresh; decide) (by decide)
      (by decide) hout⟩
